import Mathlib

/-!
shm-et340: speedwire decoder and value resolver (`main.go`)

A shallow embedding of `msgHandler`, `publishData`, `publishDataString` and the
lookup table `actualLookup`, followed by theorems about them.

Conventions of the embedding

* a `[]byte` is a `List byte` whose capacity equals its length (the buffers
  handed to `msgHandler` are made with `make([]byte, n)` and passed whole);
  every statement about "every buffer" is about such buffers;
* Go `int` is 64 bits wide; integers are `Int`/`Nat` with explicit wrap-around
  where a conversion can overflow;
* a run-time panic (index or slice bound out of range) and `log.Fatalf`
  (which ends the process) are explicit exits of `msgHandler`;
* `float64` is IEEE-754 binary64 with round-to-nearest-even.
-/

namespace ShmEt340

/-! ## Bytes, slices and `encoding/binary` -/

/-- Go `byte`. -/
abbrev byte := Fin 256

/-- Slice expression `b[lo:hi]`; `none` is the run-time panic raised unless
`lo ≤ hi ≤ cap(b)`. A buffer is a whole slice, whose capacity is its length, so
the bound `cap(b)` is `b.length`; a slice with spare capacity beyond its length
is outside this model. -/
def slice (b : List byte) (lo hi : Nat) : Option (List byte) :=
  if lo ≤ hi ∧ hi ≤ b.length then some ((b.drop lo).take (hi - lo)) else none

/-- Slice expression `b[lo:]`; `none` is the run-time panic raised unless
`lo ≤ len(b)`. -/
def sliceFrom (b : List byte) (lo : Nat) : Option (List byte) :=
  if lo ≤ b.length then some (b.drop lo) else none

/-- Index expression `b[i]`; `none` is the run-time panic. -/
def index (b : List byte) (i : Nat) : Option Nat :=
  (b.get? i).map Fin.val

/-- `binary.BigEndian.Uint16`: `uint16(b[1]) | uint16(b[0])<<8`. -/
def Uint16 (b : List byte) : Option Nat :=
  match b with
  | b0 :: b1 :: _ => some (b1.val ||| (b0.val <<< 8))
  | _ => none

/-- `binary.BigEndian.Uint32`. -/
def Uint32 (b : List byte) : Option Nat :=
  match b with
  | b0 :: b1 :: b2 :: b3 :: _ =>
    some (b3.val ||| (b2.val <<< 8) ||| (b1.val <<< 16) ||| (b0.val <<< 24))
  | _ => none

/-- `binary.BigEndian.Uint64`. -/
def Uint64 (b : List byte) : Option Nat :=
  match b with
  | b0 :: b1 :: b2 :: b3 :: b4 :: b5 :: b6 :: b7 :: _ =>
    some (b7.val ||| (b6.val <<< 8) ||| (b5.val <<< 16) ||| (b4.val <<< 24) |||
      (b3.val <<< 32) ||| (b2.val <<< 40) ||| (b1.val <<< 48) ||| (b0.val <<< 56))
  | _ => none

/-- Conversion `int(x)` of an unsigned 64-bit (or narrower) value to the
64-bit signed `int`: values from `2^63` on wrap to negative. -/
def toInt64 (x : Nat) : Int :=
  if x % 2 ^ 64 < 2 ^ 63 then ((x % 2 ^ 64 : Nat) : Int)
  else ((x % 2 ^ 64 : Nat) : Int) - 2 ^ 64

/-! ## `float64` -/

/-- IEEE-754 binary64. A finite value is `(-1)^neg * sig * 2^exp`, kept in the
canonical form of the encoding: `2^52 ≤ sig < 2^53` and `-1074 ≤ exp ≤ 971`
for normal numbers, `sig < 2^52` and `exp = -1074` for subnormal ones, and
`sig = 0`, `exp = 0` for the two zeros. -/
inductive float64
  | finite (neg : Bool) (sig : Nat) (exp : Int)
  | inf (neg : Bool)
  | nan
deriving DecidableEq, Repr

/-- Quotient `n / d` rounded to the nearest natural number, ties to even. -/
def rneDiv (n d : Nat) : Nat :=
  if 2 * (n % d) < d then n / d
  else if d < 2 * (n % d) then n / d + 1
  else n / d + (n / d) % 2

/-- Loop of `ilog2`, structural in `fuel`. -/
def ilog2Loop : Nat → Nat → Nat
  | 0, _ => 0
  | fuel + 1, n => if n < 2 then 0 else ilog2Loop fuel (n / 2) + 1

/-- Floor of the binary logarithm (`0` at `0`). -/
def ilog2 (n : Nat) : Nat := ilog2Loop n n

/-- The binary64 nearest to `(-1)^neg * n / d` (`d ≠ 0`), ties to even. -/
def float64.round (neg : Bool) (n d : Nat) : float64 :=
  if n = 0 then .finite neg 0 0
  else
    let e0 : Int := (ilog2 n : Int) - (ilog2 d : Int)
    -- `2^e ≤ n / d < 2^(e+1)`
    let e : Int := if d * 2 ^ e0.toNat ≤ n * 2 ^ (-e0).toNat then e0 else e0 - 1
    -- exponent of the unit in the last place
    let x : Int := max (e - 52) (-1074)
    let m : Nat := rneDiv (n * 2 ^ (-x).toNat) (d * 2 ^ x.toNat)
    if m = 0 then .finite neg 0 0
    else if m = 2 ^ 53 then (if x + 1 > 971 then .inf neg else .finite neg (2 ^ 52) (x + 1))
    else if x > 971 then .inf neg
    else .finite neg m x

/-- Conversion `float64(i)` of an `int`. -/
def float64.ofInt (i : Int) : float64 :=
  float64.round (decide (i < 0)) i.natAbs 1

/-- Unary minus. -/
def float64.neg : float64 → float64
  | .finite n s e => .finite (!n) s e
  | .inf n => .inf (!n)
  | .nan => .nan

/-- Division `a / b`. -/
def float64.div : float64 → float64 → float64
  | .nan, _ => .nan
  | _, .nan => .nan
  | .inf _, .inf _ => .nan
  | .inf na, .finite nb _ _ => .inf (xor na nb)
  | .finite na _ _, .inf nb => .finite (xor na nb) 0 0
  | .finite na sa ea, .finite nb sb eb =>
    if sb = 0 then (if sa = 0 then .nan else .inf (xor na nb))
    else float64.round (xor na nb) (sa * 2 ^ (ea - eb).toNat) (sb * 2 ^ (eb - ea).toNat)

/-- Addition `a + b`. -/
def float64.add : float64 → float64 → float64
  | .nan, _ => .nan
  | _, .nan => .nan
  | .inf na, .inf nb => if na = nb then .inf na else .nan
  | .inf na, .finite _ _ _ => .inf na
  | .finite _ _ _, .inf nb => .inf nb
  | .finite na sa ea, .finite nb sb eb =>
    let x : Int := min ea eb
    let a : Int := (if na then -1 else 1) * ((sa * 2 ^ (ea - x).toNat : Nat) : Int)
    let b : Int := (if nb then -1 else 1) * ((sb * 2 ^ (eb - x).toNat : Nat) : Int)
    if a + b = 0 then .finite (na && nb) 0 0
    else float64.round (decide (a + b < 0)) ((a + b).natAbs * 2 ^ x.toNat) (2 ^ (-x).toNat)

/-- Subtraction `a - b`. -/
def float64.sub (a b : float64) : float64 :=
  float64.add a (float64.neg b)

/-- Conversion `int(f)`: truncation toward zero. Go leaves the result to the
implementation when the truncated value does not fit an `int` (also for
infinities and NaN); the amd64 result, the minimum `int`, is used. -/
def float64.toInt : float64 → Int
  | .finite n s e =>
    let t : Int := ((s * 2 ^ e.toNat / 2 ^ (-e).toNat : Nat) : Int)
    let v : Int := if n then -t else t
    if -2 ^ 63 ≤ v ∧ v < 2 ^ 63 then v else -2 ^ 63
  | _ => -2 ^ 63

/-! ## The published value store and the publisher -/

/-- A `dbus.Variant` as far as this program builds them. -/
inductive Variant
  | int (i : Int)
  | str (s : String)
  | float (f : float64)
deriving DecidableEq, Repr

/-- Go type `objectpath`, a string. -/
abbrev objectpath := String

/-- One call of `conn.Emit(path, name, emit)`; `Text` and `Value` are the two
entries of the emitted map. -/
structure Signal where
  path : String
  name : String
  Text : Variant
  Value : Variant
deriving DecidableEq, Repr

/-- The package-level variables `msgHandler` and the publisher read or write,
and the signals emitted on the bus so far. `victronValues k p` is
`victronValues[k][p]` (`none`: no such key); index `0` holds the value
variants and index `1` the text variants. -/
structure State where
  victronValues : Int → objectpath → Option Variant
  dbusConnected : Bool
  receivedData : Bool
  emitted : List Signal

/-- Assignment `victronValues[k][path] = v`. -/
def setVictronValue (m : Int → objectpath → Option Variant) (k : Int) (path : objectpath)
    (v : Variant) : Int → objectpath → Option Variant :=
  fun k1 p1 => if k1 = k ∧ p1 = path then some v else m k1 p1

/-- Source function `publishDataString`: store and signal, both inside
`if dbusConnected`. -/
def publishDataString (value : float64) (text : String) (path : String) (st : State) : State :=
  if st.dbusConnected then
    { st with
      victronValues :=
        setVictronValue (setVictronValue st.victronValues 0 path (.float value)) 1 path (.str text)
      emitted := st.emitted ++
        [{ path := path, name := "com.victronenergy.BusItem.PropertiesChanged",
           Text := .str text, Value := .float value }] }
  else st

/-- Source function `publishData`: the text is `fmt.Sprintf("%d%s", int(value), unit)`. -/
def publishData (value : float64) (path : String) (unit : String) (st : State) : State :=
  publishDataString value (toString (float64.toInt value) ++ unit) path st

/-! ## The lookup table -/

def OBIS_ID_COUNTER : Nat := 8
def OBIS_ID_MEASURE : Nat := 4
def OBIS_ID_VERSION : Nat := 0

/-- Source type `LookupEntry`. -/
structure LookupEntry where
  Path : String
  Unit : String
  Divider : float64
  Calculated : Bool
deriving DecidableEq, Repr

/-- Source table `actualLookup`, a Go map written as the list of its
key/value pairs in source order. Measurement identifiers are non-negative
(below `2^24`), so the keys are natural numbers. -/
def actualLookup : List (Nat × LookupEntry) :=
  [ (OBIS_ID_MEASURE ||| (1 <<< 8), ⟨"/Ac/Power", "W", float64.ofInt 10, true⟩),
    (OBIS_ID_MEASURE ||| (21 <<< 8), ⟨"/Ac/L1/Power", "W", float64.ofInt 10, true⟩),
    (OBIS_ID_MEASURE ||| (41 <<< 8), ⟨"/Ac/L2/Power", "W", float64.ofInt 10, true⟩),
    (OBIS_ID_MEASURE ||| (61 <<< 8), ⟨"/Ac/L3/Power", "W", float64.ofInt 10, true⟩),
    (OBIS_ID_MEASURE ||| (32 <<< 8), ⟨"/Ac/L1/Voltage", "V", float64.ofInt 1000, false⟩),
    (OBIS_ID_MEASURE ||| (52 <<< 8), ⟨"/Ac/L2/Voltage", "V", float64.ofInt 1000, false⟩),
    (OBIS_ID_MEASURE ||| (72 <<< 8), ⟨"/Ac/L3/Voltage", "V", float64.ofInt 1000, false⟩),
    (OBIS_ID_MEASURE ||| (31 <<< 8), ⟨"/Ac/L1/Current", "A", float64.ofInt 1000, false⟩),
    (OBIS_ID_MEASURE ||| (51 <<< 8), ⟨"/Ac/L2/Current", "A", float64.ofInt 1000, false⟩),
    (OBIS_ID_MEASURE ||| (71 <<< 8), ⟨"/Ac/L3/Current", "A", float64.ofInt 1000, false⟩),
    (OBIS_ID_COUNTER ||| (21 <<< 8), ⟨"/Ac/L1/Energy/Forward", "kWh", float64.ofInt 3600000, false⟩),
    (OBIS_ID_COUNTER ||| (41 <<< 8), ⟨"/Ac/L2/Energy/Forward", "kWh", float64.ofInt 3600000, false⟩),
    (OBIS_ID_COUNTER ||| (61 <<< 8), ⟨"/Ac/L3/Energy/Forward", "kWh", float64.ofInt 3600000, false⟩),
    (OBIS_ID_COUNTER ||| (22 <<< 8), ⟨"/Ac/L1/Energy/Reverse", "kWh", float64.ofInt 3600000, false⟩),
    (OBIS_ID_COUNTER ||| (42 <<< 8), ⟨"/Ac/L2/Energy/Reverse", "kWh", float64.ofInt 3600000, false⟩),
    (OBIS_ID_COUNTER ||| (62 <<< 8), ⟨"/Ac/L3/Energy/Reverse", "kWh", float64.ofInt 3600000, false⟩),
    (OBIS_ID_COUNTER ||| (1 <<< 8), ⟨"/Ac/Energy/Forward", "kWh", float64.ofInt 3600000, false⟩),
    (OBIS_ID_COUNTER ||| (2 <<< 8), ⟨"/Ac/Energy/Reverse", "kWh", float64.ofInt 3600000, false⟩) ]

/-! ## `msgHandler` -/

/-- The per-packet map `dataLookup : map[int]int`, keyed by measurement
identifier. -/
abbrev RawMap := Nat → Option Int

/-- Assignment `dataLookup[id] = v`. -/
def RawMap.set (m : RawMap) (id : Nat) (v : Int) : RawMap :=
  fun k => if k = id then some v else m k

/-- The identifier of a record: `id := measurementChannel<<8 | measurementType`. -/
def measurementId (measurementChannel measurementType : Nat) : Nat :=
  (measurementChannel <<< 8) ||| measurementType

/-- One pass through the body of the loop
`for position := 20; position < dlen; { ... }` of `msgHandler`: the identifier
and the raw value it stores and the position it leaves; `none` is a run-time
panic. -/
def loopBody (b : List byte) (position : Nat) : Option (Nat × Int × Nat) :=
  -- new pointer to data
  match sliceFrom b position with
  | none => none
  | some datablob =>
    -- fetch measurement id and type
    match index datablob 2 with
    | none => none
    | some measurementType =>
      match index datablob 0, index datablob 1 with
      | some d0, some d1 =>
        let measurementChannel := (d0 <<< 8) ||| d1
        let id := measurementId measurementChannel measurementType
        -- store data
        let stored : Option Int :=
          if measurementType = OBIS_ID_COUNTER then
            ((slice datablob 4 (4 + 8)).bind Uint64).map toInt64
          else
            ((slice datablob 4 (4 + 4)).bind Uint32).map toInt64
        match stored with
        | none => none
        | some v =>
          -- increment
          if measurementType = OBIS_ID_COUNTER then some (id, v, position + (4 + 8))
          else some (id, v, position + (4 + 4))
      | _, _ => none

/-- How the body loop of `msgHandler` ends. -/
inductive LoopExit
  | done (dataLookup : RawMap)
  | panic
  | outOfFuel

/-- The loop `for position := 20; position < dlen; { ... }` of `msgHandler`,
from the given `position` and map, running at most `fuel` tests of the loop
condition. -/
def bodyLoop (b : List byte) (dlen : Nat) : Nat → Nat → RawMap → LoopExit
  | 0, _, _ => .outOfFuel
  | fuel + 1, position, dataLookup =>
    if position < dlen then
      match loopBody b position with
      | none => .panic
      | some (id, v, position1) => bodyLoop b dlen fuel position1 (dataLookup.set id v)
    else .done dataLookup

/-- How the decoding part of `msgHandler` (header checks and body loop) ends. -/
inductive Decoded
  | invalidHeader
  | fatal
  | panic
  | outOfFuel
  | ok (dataLookup : RawMap)

/-- The decoding part of `msgHandler`: everything before the loop over
`actualLookup`. The body loop is given `dlen + 1` tests of its condition. -/
def decode (b : List byte) : Decoded :=
  -- decode header identifier
  match slice b 0 4 with
  | none => .panic
  | some hdr =>
    if hdr ≠ [83, 77, 65, 0] then .invalidHeader
    else
      -- decode uid
      match (slice b 4 8).bind Uint32 with
      | none => .panic
      | some _uid =>
        -- decode data length
        match (slice b 12 14).bind Uint16 with
        | none => .panic
        | some dlen =>
          -- verify correct tag
          match (slice b 14 16).bind Uint16 with
          | none => .panic
          | some tagReceived =>
            if tagReceived ≠ 0x0010 then .fatal
            else
              -- verify protocol id
              match (slice b 16 18).bind Uint16 with
              | none => .panic
              | some idReceived =>
                if idReceived ≠ 0x6069 then .fatal
                else
                  -- lets fetch all data we can and store it in a temporary map
                  match bodyLoop b dlen (dlen + 1) 20 (fun _ => none) with
                  | .panic => .panic
                  | .outOfFuel => .outOfFuel
                  | .done dataLookup => .ok dataLookup

/-- One iteration of the loop `for id, lookup := range actualLookup` of
`msgHandler`. -/
def resolveEntry (dataLookup : RawMap) (st : State) (e : Nat × LookupEntry) : State :=
  match dataLookup e.1 with
  | none => st
  | some val =>
    if e.2.Calculated = false then
      let valFloat := (float64.ofInt val).div e.2.Divider
      publishData valFloat e.2.Path e.2.Unit st
    else
      match dataLookup (e.1 + (1 <<< 8)) with
      | none => st
      | some val2 =>
        let forward := (float64.ofInt val).div e.2.Divider
        let reverse := (float64.ofInt val2).div e.2.Divider
        let sum := forward.sub reverse
        publishData sum e.2.Path e.2.Unit st

/-- The loop `for id, lookup := range actualLookup`, visiting the entries in
the given order (Go leaves the iteration order of a map unspecified). -/
def resolveAll (order : List (Nat × LookupEntry)) (dataLookup : RawMap) (st : State) : State :=
  order.foldl (resolveEntry dataLookup) st

/-- How a call of `msgHandler` ends: it returns, `log.Fatalf` ends the
process, a run-time panic is raised, or the fuel of the body loop ran out. -/
inductive Exit
  | returned
  | fatal
  | panicked
  | outOfFuel
deriving DecidableEq, Repr

/-- Result of a call: how it ended and the state it left. -/
structure Result where
  exit : Exit
  state : State

/-- Source function `msgHandler(src, n, b)`; `src` and `n` are not used by the
body. `order` is the order in which `range actualLookup` visits the table. -/
def msgHandler (order : List (Nat × LookupEntry)) (st : State) (b : List byte) : Result :=
  match decode b with
  | .invalidHeader => ⟨.returned, st⟩
  | .fatal => ⟨.fatal, st⟩
  | .panic => ⟨.panicked, st⟩
  | .outOfFuel => ⟨.outOfFuel, st⟩
  | .ok dataLookup =>
    -- process incoming data, try to fetch all we need; then
    -- tell the alive check that we got data!
    ⟨.returned, { resolveAll order dataLookup st with receivedData := true }⟩

/-- Source table `basicPaths`. -/
def basicPaths : List String :=
  [ "/", "/Connected", "/CustomName", "/DeviceInstance", "/DeviceType", "/ErrorCode",
    "/FirmwareVersion", "/Mgmt/Connection", "/Mgmt/ProcessName", "/Mgmt/ProcessVersion",
    "/Position", "/ProductId", "/ProductName", "/Serial" ]


/-- The 2-byte big-endian field at offset `off` of a buffer (a byte beyond the
end reads as 0). -/
def field16 (b : List byte) (off : Nat) : Nat :=
  (b.getD off 0).val * 256 + (b.getD (off + 1) 0).val

/-- The value the loop over `actualLookup` hands to `publishData` for one
entry, `none` when the entry is skipped (read off `resolveEntry`). -/
def entryValue (dataLookup : RawMap) (e : Nat × LookupEntry) : Option float64 :=
  match dataLookup e.1 with
  | none => none
  | some val =>
    if e.2.Calculated = false then some ((float64.ofInt val).div e.2.Divider)
    else
      match dataLookup (e.1 + (1 <<< 8)) with
      | none => none
      | some val2 =>
        some (((float64.ofInt val).div e.2.Divider).sub ((float64.ofInt val2).div e.2.Divider))

/-- The signal `publishData(value, path, unit)` emits when the bus is
connected. -/
def publishedSignal (value : float64) (path unit : String) : Signal :=
  { path := path, name := "com.victronenergy.BusItem.PropertiesChanged",
    Text := .str (toString (float64.toInt value) ++ unit), Value := .float value }

/-- The state shows a publish of `value` for the entry: the store holds the
value and the text `int(value)` followed by the unit at the path of the entry,
and the signal carrying both was emitted. -/
def Published (st : State) (e : LookupEntry) (value : float64) : Prop :=
  st.victronValues 0 e.Path = some (.float value) ∧
  st.victronValues 1 e.Path = some (.str (toString (float64.toInt value) ++ e.Unit)) ∧
  publishedSignal value e.Path e.Unit ∈ st.emitted

/-- A state in which nothing was stored or emitted yet, with the bus
connected and the liveness flag reset. -/
def emptyState : State :=
  { victronValues := fun _ _ => none, dbusConnected := true, receivedData := false, emitted := [] }

/-- The first 20 bytes of a datagram with the given payload length field:
header tag `SMA\0`, eight bytes that are not checked, the length, the data
tag `0x0010`, the protocol id `0x6069` and two more unchecked bytes. -/
def header (dlen : Nat) : List byte :=
  [83, 77, 65, 0, 0, 0, 0, 0, 0, 0, 0, 0, Fin.ofNat (dlen / 256), Fin.ofNat (dlen % 256),
   0x00, 0x10, 0x60, 0x69, 0, 0]

/-! ## The wire format, as the specification describes it -/

/-- A record of the wire format: 2 bytes of channel, 1 byte of type, 1
reserved byte and a value of 8 bytes when the type is the counter type 8, of 4
bytes otherwise. -/
structure Record where
  channel : Nat
  type : Nat
  reserved : byte
  value : Nat
deriving DecidableEq, Repr

/-- The fields of the record fit their widths. -/
def Record.WellFormed (r : Record) : Prop :=
  r.channel < 2 ^ 16 ∧ r.type < 2 ^ 8 ∧
    r.value < (if r.type = 8 then 2 ^ 64 else 2 ^ 32)

instance (r : Record) : Decidable r.WellFormed := by
  unfold Record.WellFormed
  infer_instance

/-- The identifier of the record, `channel<<8 | type`. -/
def Record.id (r : Record) : Nat := measurementId r.channel r.type

/-- Number of bytes of the encoded record. -/
def Record.size (r : Record) : Nat := if r.type = 8 then 12 else 8

/-- The `n` low-order bytes of `v`, most significant first. -/
def bigEndian : Nat → Nat → List byte
  | 0, _ => []
  | n + 1, v => Fin.ofNat (v / 256 ^ n) :: bigEndian n v

/-- The bytes of a record. -/
def encodeRecord (r : Record) : List byte :=
  bigEndian 2 r.channel ++ [Fin.ofNat r.type, r.reserved] ++
    bigEndian (if r.type = 8 then 8 else 4) r.value

/-- The bytes of a chain of records. -/
def encodeRecords : List Record → List byte
  | [] => []
  | r :: rs => encodeRecord r ++ encodeRecords rs

/-- Number of bytes of an encoded chain of records. -/
def chainSize : List Record → Nat
  | [] => 0
  | r :: rs => r.size + chainSize rs

/-- The records of a chain laid out from offset `pos` that start below the
offset `limit`. -/
def recordsBelow (limit : Nat) : Nat → List Record → List Record
  | _, [] => []
  | pos, r :: rs => if pos < limit then r :: recordsBelow limit (pos + r.size) rs else []

/-- The raw value mapping obtained by storing the records in order, the value
converted to `int`, starting from the map `m`. -/
def storeRecords (m : RawMap) (rs : List Record) : RawMap :=
  rs.foldl (fun acc r => acc.set r.id (toInt64 r.value)) m

/-- A 20-byte header with a valid header tag, data tag and protocol id and
the payload length field `dlen`. -/
def ValidHeader (hdr : List byte) (dlen : Nat) : Prop :=
  hdr.length = 20 ∧ hdr.take 4 = [83, 77, 65, 0] ∧ field16 hdr 12 = dlen ∧
    field16 hdr 14 = 0x0010 ∧ field16 hdr 16 = 0x6069

/-- A datagram with one record: channel 32, type 4 (measure), raw value
229900, the voltage of phase 1 in millivolts. -/
def voltagePacket : List byte :=
  header 28 ++ [0, 32, 4, 0, 0x00, 0x03, 0x82, 0x0C]

/-- A datagram with the power-measure pair: channel 1, type 4 with raw value
36000000 (`0x02255100`) and channel 2, type 4 with raw value 3600000
(`0x0036EE80`). -/
def powerPacket : List byte :=
  header 36 ++ [0, 1, 4, 0, 0x02, 0x25, 0x51, 0x00, 0, 2, 4, 0, 0x00, 0x36, 0xEE, 0x80]

/-- A datagram with two forward power records and no reverse one: channel 1,
type 4 with raw value 7 and channel 21, type 4 with raw value 5. -/
def forwardOnlyPacket : List byte :=
  header 36 ++ [0, 1, 4, 0, 0, 0, 0, 7, 0, 21, 4, 0, 0, 0, 0, 5]

/-- A datagram with the forward power record of channel 1 (raw value 7) and
the voltage of phase 1 (raw value 229900). -/
def missingPairPacket : List byte :=
  header 36 ++ [0, 1, 4, 0, 0, 0, 0, 7, 0, 32, 4, 0, 0x00, 0x03, 0x82, 0x0C]

/-- A datagram whose payload length field is 28 and whose body is the encoded
chain of two 8-byte records, at offsets 20 and 28. -/
def twoRecordPacket : List byte :=
  header 28 ++ encodeRecords [⟨1, 4, 0, 36000000⟩, ⟨2, 4, 0, 3600000⟩]

/-- A datagram with one counter record, channel 1, whose 8-byte value is
`2^64 - 1`; the payload length field is 32, the end of the record. -/
def bigCounterPacket : List byte :=
  header 32 ++ encodeRecords [⟨1, 8, 0, 2 ^ 64 - 1⟩]

/-! ## Reading of a `float64` as a number -/

/-- The rational number a finite `float64` stands for. -/
def float64.toRat : float64 → Option ℚ
  | .finite neg sig exp => some ((if neg then -1 else 1) * (sig : ℚ) * (2 : ℚ) ^ exp)
  | _ => none

/-- Truncation of a rational number toward zero. -/
def truncate (q : ℚ) : Int := if 0 ≤ q then ⌊q⌋ else ⌈q⌉

/-- The `float64` nearest to 229.9. -/
def volts229_9 : float64 := float64.round false 2299 10

/-- The state `emptyState` with the bus not connected. -/
def disconnectedState : State :=
  { victronValues := fun _ _ => none, dbusConnected := false, receivedData := false,
    emitted := [] }

/-- A datagram in which two records carry the identifier of the voltage of
phase 1, first with the raw value 229900, then with 230500. -/
def repeatedIdRecords : List Record :=
  [⟨32, 4, 0, 229900⟩, ⟨32, 4, 0, 230500⟩]

/-! ## The liveness monitor -/

/-- A call `publishDataString(value, text, path)`. -/
structure PublishCall where
  value : float64
  text : String
  path : String
deriving DecidableEq, Repr

/-- The effect of the call on the state. -/
def PublishCall.run (c : PublishCall) (st : State) : State :=
  publishDataString c.value c.text c.path st

/-- The signal the call emits when the bus is connected. -/
def PublishCall.signal (c : PublishCall) : Signal :=
  { path := c.path, name := "com.victronenergy.BusItem.PropertiesChanged",
    Text := .str c.text, Value := .float c.value }

/-- The connectivity publish for a state: `publishDataString(1, "1",
"/Connected")` for online, `publishDataString(0, "0", "/Connected")` for
offline. -/
def connectivityCall (online : Bool) : PublishCall :=
  if online then ⟨float64.ofInt 1, "1", "/Connected"⟩ else ⟨float64.ofInt 0, "0", "/Connected"⟩

/-- The publish call of one iteration of the loop of `connectionAliveCheck`,
from `previousState` and the value of `receivedData` found after the sleep:
the part `if previousState != receivedData { ... }`. -/
def aliveCheckCall (previousState receivedData : Bool) : Option PublishCall :=
  if previousState != receivedData then
    if !receivedData then some ⟨float64.ofInt 0, "0", "/Connected"⟩
    else some ⟨float64.ofInt 1, "1", "/Connected"⟩
  else none

/-- One iteration of the loop of `connectionAliveCheck`. `captured` tells
whether the receive path set the flag during the sleep. The result is the new
`previousState`, the state and the publish call made, if any. -/
def aliveCheckIteration (previousState captured : Bool) (st : State) :
    Bool × State × Option PublishCall :=
  -- check if we processed data
  let st1 := { st with receivedData := false }
  -- wait some time
  let st2 := { st1 with receivedData := st1.receivedData || captured }
  let call := aliveCheckCall previousState st2.receivedData
  let st3 := match call with
    | none => st2
    | some c => c.run st2
  (st3.receivedData, st3, call)

/-- The first iterations of the loop of `connectionAliveCheck`, one per element
of `ticks`, from the given `previousState`: the calls made, tick by tick, and
the state reached. -/
def connectionAliveCheck : List Bool → Bool → State → List (Option PublishCall) × State
  | [], _, st => ([], st)
  | captured :: ticks, previousState, st =>
    let r := aliveCheckIteration previousState captured st
    let rest := connectionAliveCheck ticks r.1 r.2.1
    (r.2.2 :: rest.1, rest.2)

/-- The calls a run of the monitor makes, tick by tick, read off
`connectionAliveCheck` without the state. -/
def monitorCalls : Bool → List Bool → List (Option PublishCall)
  | _, [] => []
  | previousState, captured :: ticks =>
    aliveCheckCall previousState captured :: monitorCalls captured ticks

/-! ## Start-up -/

/-- Assignment of the value variant and of the text variant of a path:
`victronValues[0][path] = v0` and `victronValues[1][path] = v1`. -/
def setBoth (m : Int → objectpath → Option Variant) (path : objectpath) (v0 v1 : Variant) :
    Int → objectpath → Option Variant :=
  setVictronValue (setVictronValue m 0 path v0) 1 path v1

/-- The fixed assignments of `initVictronValues`, in source order: path,
value variant, text variant. -/
def staticValues : List (String × Variant × Variant) :=
  [ ("/Connected", .int 1, .str "1"),
    ("/CustomName", .str "Grid meter", .str "Grid meter"),
    ("/DeviceInstance", .int 30, .str "30"),
    ("/DeviceType", .int 71, .str "71"),
    ("/ErrorCode", .int 0, .str "0"),
    ("/FirmwareVersion", .int 2, .str "2"),
    ("/Mgmt/Connection", .str "/dev/ttyUSB0", .str "/dev/ttyUSB0"),
    ("/Mgmt/ProcessName", .str "/opt/color-control/dbus-cgwacs/dbus-cgwacs",
      .str "/opt/color-control/dbus-cgwacs/dbus-cgwacs"),
    ("/Mgmt/ProcessVersion", .str "1.8.0", .str "1.8.0"),
    ("/Position", .int 0, .str "0"),
    ("/ProductId", .int 45058, .str "45058"),
    ("/ProductName", .str "Grid meter", .str "Grid meter"),
    ("/Serial", .str "BP98305081235", .str "BP98305081235") ]

/-- Source function `initVictronValues`: the fixed assignments, then for each
entry of `actualLookup`, visited in the given order, the value `0.0` and the
text `fmt.Sprintf("%.1f %s", 0.0, lookup.Unit)`. -/
def initVictronValues (order : List (Nat × LookupEntry)) (st : State) : State :=
  { st with
    victronValues :=
      order.foldl
        (fun m lookup =>
          setBoth m lookup.2.Path (.float (float64.ofInt 0)) (.str ("0.0 " ++ lookup.2.Unit)))
        (staticValues.foldl (fun m x => setBoth m x.1 x.2.1 x.2.2) st.victronValues) }

/-- The paths the program publishes to: `/Connected` and the paths of the
entries of `actualLookup`. -/
def publishablePaths : List String :=
  "/Connected" :: actualLookup.map fun x => x.2.Path

/-- The store holds a value variant and a text variant for every path the
program publishes to. -/
def StoreComplete (st : State) : Prop :=
  ∀ p ∈ publishablePaths, (st.victronValues 0 p).isSome = true ∧
    (st.victronValues 1 p).isSome = true

/-- Replies of `conn.RequestName`. -/
inductive RequestNameReply
  | PrimaryOwner
  | InQueue
  | Exists
  | AlreadyOwner
deriving DecidableEq, Repr

/-- What the bus does at start-up. `noConnection`: `dbus.SystemBus()` failed,
so the package variable `conn` is nil (its `err` is never looked at).
`requestError`: there is a connection and `conn.RequestName` returns an error.
`reply r`: `conn.RequestName` returns the reply `r` and no error. -/
inductive BusStart
  | noConnection
  | requestError
  | reply (r : RequestNameReply)
deriving DecidableEq, Repr

/-- How `main` ends: it blocks for ever in `select {}`, or a panic ends it
(`log.Panic`, or the nil dereference of `conn.RequestName` on a nil `conn`). -/
inductive MainExit
  | blocks
  | panicked
deriving DecidableEq, Repr

/-- The values of the package variables when the process starts:
`victronValues` with its two empty maps, `dbusConnected = false`,
`receivedData = true`, and nothing emitted yet. -/
def initialState : State :=
  { victronValues := fun _ _ => none, dbusConnected := false, receivedData := true,
    emitted := [] }

/-- Source function `main`, from `initVictronValues()` on (the two goroutines
are started before). The exports of the paths do not touch the state. The
assignment `dbusConnected = true` stands after the `if`/`else`, so it is
reached on the error branch too. -/
def main (order : List (Nat × LookupEntry)) (bus : BusStart) (st : State) :
    MainExit × State :=
  -- init paths
  let st1 := initVictronValues order st
  match bus with
  | .noConnection =>
    -- conn.RequestName on the nil conn: run-time panic
    (.panicked, st1)
  | .requestError =>
    -- log.Error: will run in print only debug mode
    (.blocks, { st1 with dbusConnected := true })
  | .reply r =>
    if r ≠ .PrimaryOwner then
      -- log.Panic
      (.panicked, st1)
    else
      -- exports of the paths, log.Info
      (.blocks, { st1 with dbusConnected := true })

/-! # Theorems -/

set_option maxRecDepth 100000

/-! ## Arithmetic of the byte order -/

theorem lor_shiftLeft_eq_add (x a i : Nat) (h : x < 2 ^ i) : x ||| (a <<< i) = a * 2 ^ i + x := by
  rw [Nat.lor_comm, Nat.shiftLeft_eq, Nat.mul_comm a, ← Nat.mul_add_lt_is_or h]

theorem shiftLeft_lor_eq_add (x a i : Nat) (h : x < 2 ^ i) : (a <<< i) ||| x = a * 2 ^ i + x := by
  rw [Nat.shiftLeft_eq, Nat.mul_comm a, ← Nat.mul_add_lt_is_or h]

theorem Uint16_cons (b0 b1 : byte) (t : List byte) :
    Uint16 (b0 :: b1 :: t) = some (b0.val * 256 + b1.val) := by
  simp only [Uint16]
  rw [lor_shiftLeft_eq_add _ _ _ (by have := b1.isLt; omega)]
  norm_num

theorem slice_eq_some (b : List byte) (lo hi : Nat) (h1 : lo ≤ hi) (h2 : hi ≤ b.length) :
    slice b lo hi = some ((b.drop lo).take (hi - lo)) := by
  simp [slice, h1, h2]

theorem slice_eq_none (b : List byte) (lo hi : Nat) (h : b.length < hi) :
    slice b lo hi = none := by
  simp [slice]; intro _; omega

/-! ## Header checks -/

theorem decode_invalidHeader (b : List byte) (hlen : 4 ≤ b.length)
    (hhdr : b.take 4 ≠ [83, 77, 65, 0]) : decode b = .invalidHeader := by
  unfold decode
  rw [slice_eq_some b 0 4 (by omega) hlen]
  simp only [List.drop_zero, Nat.sub_zero]
  rw [if_pos hhdr]

/-- After a valid header tag, `decode` is the two marker checks followed by
the body loop bounded by the payload length field. -/
theorem decode_of_header (b : List byte) (hlen : 18 ≤ b.length)
    (hhdr : b.take 4 = [83, 77, 65, 0]) :
    decode b =
      if field16 b 14 ≠ 0x0010 then .fatal
      else if field16 b 16 ≠ 0x6069 then .fatal
      else match bodyLoop b (field16 b 12) (field16 b 12 + 1) 20 (fun _ => none) with
        | .panic => .panic
        | .outOfFuel => .outOfFuel
        | .done dataLookup => .ok dataLookup := by
  rcases b with _ | ⟨b0, _ | ⟨b1, _ | ⟨b2, _ | ⟨b3, _ | ⟨b4, _ | ⟨b5, _ | ⟨b6, _ | ⟨b7, _ | ⟨b8, _ | ⟨b9, _ | ⟨b10, _ | ⟨b11, _ | ⟨b12, _ | ⟨b13, _ | ⟨b14, _ | ⟨b15, _ | ⟨b16, _ | ⟨b17, rest⟩⟩⟩⟩⟩⟩⟩⟩⟩⟩⟩⟩⟩⟩⟩⟩⟩⟩
  all_goals first | (simp at hlen; done) | skip
  simp only [List.take_succ_cons, List.take_zero] at hhdr
  simp only [decode, slice, field16]
  simp [Uint16_cons, Uint32, hhdr]

/-! ## The body loop -/

/-- A pass of the loop body that does not panic read a record that lies
inside the buffer, and advanced by 8 or by 12. -/
theorem loopBody_some_bounds (b : List byte) (pos id : Nat) (v : Int) (pos1 : Nat)
    (h : loopBody b pos = some (id, v, pos1)) :
    (pos1 = pos + 8 ∨ pos1 = pos + 12) ∧ pos1 ≤ b.length := by
  unfold loopBody at h
  simp only [sliceFrom, slice] at h
  by_cases hp : pos ≤ b.length
  · simp only [hp, if_true] at h
    split at h
    · exact absurd h (by simp)
    · split at h
      · simp only [List.length_drop] at h
        split at h
        · exact absurd h (by simp)
        · rename_i v1 hv
          split at h
          · rename_i hc
            simp only [hc, if_true] at hv
            by_cases h12 : 4 ≤ 4 + 8 ∧ 4 + 8 ≤ b.length - pos
            · simp only [Option.some.injEq, Prod.mk.injEq] at h
              omega
            · rw [if_neg (by omega)] at hv
              simp at hv
          · rename_i hc
            simp only [hc, if_false] at hv
            by_cases h8 : 4 ≤ 4 + 4 ∧ 4 + 4 ≤ b.length - pos
            · simp only [Option.some.injEq, Prod.mk.injEq] at h
              omega
            · rw [if_neg (by omega)] at hv
              simp at hv
      · exact absurd h (by simp)
  · simp [hp] at h

theorem bodyLoop_ne_outOfFuel (b : List byte) (dlen : Nat) :
    ∀ (fuel pos : Nat) (m : RawMap), 0 < fuel → dlen < fuel + pos →
      bodyLoop b dlen fuel pos m ≠ .outOfFuel := by
  intro fuel
  induction fuel with
  | zero => intro pos m h; omega
  | succ fuel ih =>
    intro pos m _ hf
    unfold bodyLoop
    split
    · rename_i hlt
      split
      · simp
      · rename_i id v pos1 hb
        have := (loopBody_some_bounds b pos id v pos1 hb).1
        exact ih pos1 _ (by omega) (by omega)
    · simp

theorem bodyLoop_panic_of_short (b : List byte) (dlen : Nat) (hshort : b.length < dlen) :
    ∀ (fuel pos : Nat) (m : RawMap), pos < dlen → dlen < fuel + pos →
      bodyLoop b dlen fuel pos m = .panic := by
  intro fuel
  induction fuel with
  | zero => intro pos m h1 h2; omega
  | succ fuel ih =>
    intro pos m hlt hf
    unfold bodyLoop
    rw [if_pos hlt]
    split
    · rfl
    · rename_i id v pos1 hb
      have := loopBody_some_bounds b pos id v pos1 hb
      exact ih pos1 _ (by omega) (by omega)

theorem decode_ne_outOfFuel (b : List byte) : decode b ≠ .outOfFuel := by
  unfold decode
  repeat' split
  all_goals first | (intro h; cases h; done) | skip
  rename_i h
  exact absurd h (bodyLoop_ne_outOfFuel b _ _ _ _ (by omega) (by omega))

theorem msgHandler_exit_ne_outOfFuel (order : List (Nat × LookupEntry)) (st : State)
    (b : List byte) : (msgHandler order st b).exit ≠ .outOfFuel := by
  have h := decode_ne_outOfFuel b
  unfold msgHandler
  split <;> simp_all

/-! ## Header failures -/

/-- C3. A buffer whose first four bytes are not `S`, `M`, `A`, `0` makes
`msgHandler` return at once: the exit is the plain return (not the fatal one,
whatever the data tag and the protocol id are), and the state is the state
before the call, so no signal was emitted, no path of the store changed and
`receivedData` kept its value. -/
theorem C3_malformed_header_dropped (order : List (Nat × LookupEntry)) (st : State)
    (b : List byte) (hlen : 4 ≤ b.length) (hhdr : b.take 4 ≠ [83, 77, 65, 0]) :
    msgHandler order st b = ⟨.returned, st⟩ := by
  unfold msgHandler
  rw [decode_invalidHeader b hlen hhdr]

/-- C3, at a buffer with a wrong header tag that also has a wrong data tag and
a wrong protocol id. -/
theorem C3_malformed_header_dropped_witness :
    msgHandler actualLookup emptyState
        [88, 77, 65, 0, 0, 0, 0, 0, 0, 0, 0, 0, 0, 28, 0xFF, 0xFF, 0xFF, 0xFF, 0, 0] =
      ⟨.returned, emptyState⟩ :=
  C3_malformed_header_dropped actualLookup emptyState
    [88, 77, 65, 0, 0, 0, 0, 0, 0, 0, 0, 0, 0, 28, 0xFF, 0xFF, 0xFF, 0xFF, 0, 0]
    (by decide) (by decide)

/-- C4. With a valid header tag, `msgHandler` takes the fatal exit exactly
when the big-endian field at offset 14 is not `0x0010` or the one at offset 16
is not `0x6069`; the fatal exit leaves the state as it was before the call
(nothing resolved or published, store and `receivedData` unchanged). -/
theorem C4_fatal_iff_marker_mismatch (order : List (Nat × LookupEntry)) (st : State)
    (b : List byte) (hlen : 18 ≤ b.length) (hhdr : b.take 4 = [83, 77, 65, 0]) :
    ((msgHandler order st b).exit = .fatal ↔
        (field16 b 14 ≠ 0x0010 ∨ field16 b 16 ≠ 0x6069)) ∧
      ((msgHandler order st b).exit = .fatal → (msgHandler order st b).state = st) := by
  unfold msgHandler
  rw [decode_of_header b hlen hhdr]
  by_cases h14 : field16 b 14 ≠ 0x0010
  · simp [h14]
  · by_cases h16 : field16 b 16 ≠ 0x6069
    · simp [h16]
    · rw [if_neg h14, if_neg h16]
      have h14a : ¬ (field16 b 14 ≠ 0x0010 ∨ field16 b 16 ≠ 0x6069) := by tauto
      cases bodyLoop b (field16 b 12) (field16 b 12 + 1) 20 (fun _ => none) <;> simp [h14a]

/-- C4, at a datagram with a valid header tag and the data tag `0x0011`. -/
theorem C4_fatal_iff_marker_mismatch_witness :
    ((msgHandler actualLookup emptyState
          [83, 77, 65, 0, 0, 0, 0, 0, 0, 0, 0, 0, 0, 20, 0x00, 0x11, 0x60, 0x69, 0, 0]).exit
        = .fatal ↔
        (field16 [83, 77, 65, 0, 0, 0, 0, 0, 0, 0, 0, 0, 0, 20, 0x00, 0x11, 0x60, 0x69, 0, 0] 14
            ≠ 0x0010 ∨
          field16 [83, 77, 65, 0, 0, 0, 0, 0, 0, 0, 0, 0, 0, 20, 0x00, 0x11, 0x60, 0x69, 0, 0] 16
            ≠ 0x6069)) ∧
      ((msgHandler actualLookup emptyState
          [83, 77, 65, 0, 0, 0, 0, 0, 0, 0, 0, 0, 0, 20, 0x00, 0x11, 0x60, 0x69, 0, 0]).exit
        = .fatal →
        (msgHandler actualLookup emptyState
          [83, 77, 65, 0, 0, 0, 0, 0, 0, 0, 0, 0, 0, 20, 0x00, 0x11, 0x60, 0x69, 0, 0]).state
        = emptyState) :=
  C4_fatal_iff_marker_mismatch actualLookup emptyState
    [83, 77, 65, 0, 0, 0, 0, 0, 0, 0, 0, 0, 0, 20, 0x00, 0x11, 0x60, 0x69, 0, 0]
    (by decide) (by decide)

/-! ## Buffers shorter than the declared payload -/

/-- C5, refuted. A 20-byte datagram (capacity 20) with valid markers that
declares the payload length 28: `msgHandler` does not return, it ends in a run-time
panic. -/
theorem C5_truncated_packet_panics :
    (msgHandler actualLookup emptyState (header 28)).exit = .panicked ∧
      (msgHandler actualLookup emptyState (header 28)).exit ≠ .returned := by
  decide

/-- C5, amended. `msgHandler` has no bounds check of its own. The buffers are
those whose capacity equals their length (a whole `make([]byte, n)` slice, as
the caller passes). Whenever `msgHandler` ends in a run-time panic, the state
is the state before the call (nothing was published, store and `receivedData`
unchanged); and it does end in a run-time panic, instead of dropping the
packet, for every such buffer with a valid header tag, data tag and protocol id
whose declared payload length is above 20 and above the length of the
buffer. -/
theorem C5_short_buffer_panics_without_publish (order : List (Nat × LookupEntry)) (st : State)
    (b : List byte) :
    ((msgHandler order st b).exit = .panicked → (msgHandler order st b).state = st) ∧
      (18 ≤ b.length → b.take 4 = [83, 77, 65, 0] → field16 b 14 = 0x0010 →
        field16 b 16 = 0x6069 → 20 < field16 b 12 → b.length < field16 b 12 →
        (msgHandler order st b).exit = .panicked) := by
  constructor
  · unfold msgHandler
    split <;> simp
  · intro hlen hhdr h14 h16 h20 hshort
    unfold msgHandler
    rw [decode_of_header b hlen hhdr, if_neg (by simp [h14]), if_neg (by simp [h16]),
      bodyLoop_panic_of_short b _ hshort _ _ _ h20 (by omega)]

/-- C5 amended, at the 20-byte datagram that declares the payload length 28. -/
theorem C5_short_buffer_panics_without_publish_witness :
    (msgHandler actualLookup emptyState (header 28)).exit = .panicked ∧
      (msgHandler actualLookup emptyState (header 28)).state = emptyState :=
  have h := C5_short_buffer_panics_without_publish actualLookup emptyState (header 28)
  have hp := h.2 (by decide) (by decide) (by decide) (by decide) (by decide) (by decide)
  ⟨hp, h.1 hp⟩

/-! ## The publisher and the loop over the lookup table -/

theorem publishData_victronValues (value : float64) (path unit : String) (st : State)
    (k : Int) (p : String) :
    (publishData value path unit st).victronValues k p =
      if st.dbusConnected = true ∧ p = path ∧ k = 0 then some (.float value)
      else if st.dbusConnected = true ∧ p = path ∧ k = 1 then
        some (.str (toString (float64.toInt value) ++ unit))
      else st.victronValues k p := by
  unfold publishData publishDataString setVictronValue
  by_cases hb : st.dbusConnected = true
  · by_cases hp : p = path
    · by_cases h0 : k = 0
      · simp [hb, hp, h0]
      · by_cases h1 : k = 1 <;> simp [hb, hp, h0, h1]
    · simp [hb, hp]
  · simp [hb]

theorem publishData_emitted (value : float64) (path unit : String) (st : State) :
    (publishData value path unit st).emitted =
      if st.dbusConnected = true then st.emitted ++ [publishedSignal value path unit]
      else st.emitted := by
  unfold publishData publishDataString publishedSignal
  by_cases hb : st.dbusConnected = true <;> simp [hb]

theorem publishData_dbusConnected (value : float64) (path unit : String) (st : State) :
    (publishData value path unit st).dbusConnected = st.dbusConnected := by
  unfold publishData publishDataString
  by_cases hb : st.dbusConnected = true <;> simp [hb]

theorem publishData_receivedData (value : float64) (path unit : String) (st : State) :
    (publishData value path unit st).receivedData = st.receivedData := by
  unfold publishData publishDataString
  by_cases hb : st.dbusConnected = true <;> simp [hb]

/-- An iteration of the loop over the table publishes the value of the entry,
or does nothing when the entry is skipped. -/
theorem resolveEntry_eq (m : RawMap) (st : State) (e : Nat × LookupEntry) :
    resolveEntry m st e =
      match entryValue m e with
      | none => st
      | some v => publishData v e.2.Path e.2.Unit st := by
  unfold resolveEntry entryValue
  cases m e.1 with
  | none => rfl
  | some val =>
    by_cases hc : e.2.Calculated = false
    · simp [hc]
    · simp only [hc, if_false]
      cases m (e.1 + (1 <<< 8)) <;> rfl

theorem resolveEntry_dbusConnected (m : RawMap) (st : State) (e : Nat × LookupEntry) :
    (resolveEntry m st e).dbusConnected = st.dbusConnected := by
  rw [resolveEntry_eq]
  cases entryValue m e <;> simp [publishData_dbusConnected]

theorem resolveAll_dbusConnected (m : RawMap) (order : List (Nat × LookupEntry)) :
    ∀ st : State, (resolveAll order m st).dbusConnected = st.dbusConnected := by
  induction order with
  | nil => intro st; rfl
  | cons x xs ih =>
    intro st
    simp only [resolveAll, List.foldl_cons] at ih ⊢
    rw [ih, resolveEntry_dbusConnected]

/-- Frame of the loop over the table: a path is left alone unless an entry with
that path resolves to a value. -/
theorem resolveAll_victronValues_frame (m : RawMap) (p : String) (k : Int)
    (order : List (Nat × LookupEntry)) :
    ∀ st : State, (∀ x ∈ order, x.2.Path = p → entryValue m x = none) →
      (resolveAll order m st).victronValues k p = st.victronValues k p := by
  induction order with
  | nil => intro st _; rfl
  | cons x xs ih =>
    intro st h
    simp only [resolveAll, List.foldl_cons] at ih ⊢
    rw [ih _ (fun y hy => h y (List.mem_cons_of_mem _ hy)), resolveEntry_eq]
    cases hv : entryValue m x with
    | none => rfl
    | some v =>
      have hne : x.2.Path ≠ p := fun hp => by
        have := h x (List.mem_cons_self _ _) hp
        rw [hv] at this
        cases this
      simp only [publishData_victronValues]
      rw [if_neg (fun hc => hne hc.2.1.symm), if_neg (fun hc => hne hc.2.1.symm)]

/-- Signals of the loop over the table: the signals on a path are left alone
unless an entry with that path resolves to a value. -/
theorem resolveAll_emitted_frame (m : RawMap) (p : String)
    (order : List (Nat × LookupEntry)) :
    ∀ st : State, (∀ x ∈ order, x.2.Path = p → entryValue m x = none) →
      (resolveAll order m st).emitted.filter (fun s => s.path = p) =
        st.emitted.filter (fun s => s.path = p) := by
  induction order with
  | nil => intro st _; rfl
  | cons x xs ih =>
    intro st h
    simp only [resolveAll, List.foldl_cons] at ih ⊢
    rw [ih _ (fun y hy => h y (List.mem_cons_of_mem _ hy)), resolveEntry_eq]
    cases hv : entryValue m x with
    | none => rfl
    | some v =>
      have hne : x.2.Path ≠ p := fun hp => by
        have := h x (List.mem_cons_self _ _) hp
        rw [hv] at this
        cases this
      simp only [publishData_emitted]
      by_cases hb : st.dbusConnected = true
      · simp [hb, publishedSignal, hne]
      · simp [hb]

theorem resolveAll_emitted_mono (m : RawMap) (s : Signal) (order : List (Nat × LookupEntry)) :
    ∀ st : State, s ∈ st.emitted → s ∈ (resolveAll order m st).emitted := by
  induction order with
  | nil => intro st h; exact h
  | cons x xs ih =>
    intro st h
    simp only [resolveAll, List.foldl_cons] at ih ⊢
    apply ih
    rw [resolveEntry_eq]
    cases entryValue m x with
    | none => exact h
    | some v =>
      simp only [publishData_emitted]
      by_cases hb : st.dbusConnected = true <;> simp [hb, h]

/-- With the bus connected and pairwise distinct paths in the visiting order,
an entry that resolves to a value has that value, its text and its signal
after the loop. -/
theorem resolveAll_published (m : RawMap) (e : Nat × LookupEntry) (v : float64)
    (hv : entryValue m e = some v) (order : List (Nat × LookupEntry)) :
    ∀ st : State, st.dbusConnected = true → (order.map fun x => x.2.Path).Nodup → e ∈ order →
      (resolveAll order m st).victronValues 0 e.2.Path = some (.float v) ∧
      (resolveAll order m st).victronValues 1 e.2.Path =
        some (.str (toString (float64.toInt v) ++ e.2.Unit)) ∧
      publishedSignal v e.2.Path e.2.Unit ∈ (resolveAll order m st).emitted := by
  induction order with
  | nil => intro st _ _ he; cases he
  | cons x xs ih =>
    intro st hb hnd he
    rw [List.map_cons, List.nodup_cons] at hnd
    rcases List.mem_cons.mp he with hex | hex
    · subst hex
      have hfr : ∀ y ∈ xs, y.2.Path = e.2.Path → entryValue m y = none := by
        intro y hy hp
        exact absurd (hp ▸ List.mem_map_of_mem (fun x => x.2.Path) hy) hnd.1
      have hst : resolveEntry m st e = publishData v e.2.Path e.2.Unit st := by
        rw [resolveEntry_eq, hv]
      simp only [resolveAll, List.foldl_cons] at ih ⊢
      have h0 := resolveAll_victronValues_frame m e.2.Path 0 xs (resolveEntry m st e) hfr
      have h1 := resolveAll_victronValues_frame m e.2.Path 1 xs (resolveEntry m st e) hfr
      simp only [resolveAll] at h0 h1
      refine ⟨?_, ?_, ?_⟩
      · rw [h0, hst, publishData_victronValues]; simp [hb]
      · rw [h1, hst, publishData_victronValues]; simp [hb]
      · have := resolveAll_emitted_mono m (publishedSignal v e.2.Path e.2.Unit) xs
          (resolveEntry m st e) (by rw [hst, publishData_emitted]; simp [hb])
        simpa only [resolveAll] using this
    · simp only [resolveAll, List.foldl_cons] at ih ⊢
      exact ih _ (by rw [resolveEntry_dbusConnected]; exact hb) hnd.2 hex

theorem actualLookup_paths_nodup : (actualLookup.map fun x => x.2.Path).Nodup := by
  decide

theorem order_paths_nodup (order : List (Nat × LookupEntry)) (h : order.Perm actualLookup) :
    (order.map fun x => x.2.Path).Nodup :=
  ((h.map _).nodup_iff).mpr actualLookup_paths_nodup

/-- What `msgHandler` does with a packet that decodes. -/
theorem msgHandler_of_decode_ok (order : List (Nat × LookupEntry)) (st : State) (b : List byte)
    (m : RawMap) (h : decode b = .ok m) :
    msgHandler order st b = ⟨.returned, { resolveAll order m st with receivedData := true }⟩ := by
  unfold msgHandler
  rw [h]

theorem msgHandler_state_victronValues (order : List (Nat × LookupEntry)) (st : State)
    (b : List byte) (m : RawMap) (h : decode b = .ok m) :
    (msgHandler order st b).state.victronValues = (resolveAll order m st).victronValues := by
  rw [msgHandler_of_decode_ok order st b m h]

theorem msgHandler_state_emitted (order : List (Nat × LookupEntry)) (st : State)
    (b : List byte) (m : RawMap) (h : decode b = .ok m) :
    (msgHandler order st b).state.emitted = (resolveAll order m st).emitted := by
  rw [msgHandler_of_decode_ok order st b m h]

/-- A lookup entry that resolves to a value is published by `msgHandler` when
the bus is connected. -/
theorem msgHandler_published (order : List (Nat × LookupEntry))
    (horder : order.Perm actualLookup) (st : State) (hbus : st.dbusConnected = true)
    (b : List byte) (m : RawMap) (hdec : decode b = .ok m) (x : Nat × LookupEntry)
    (hx : x ∈ actualLookup) (v : float64) (hv : entryValue m x = some v) :
    Published (msgHandler order st b).state x.2 v := by
  unfold Published
  rw [msgHandler_state_victronValues order st b m hdec, msgHandler_state_emitted order st b m hdec]
  exact resolveAll_published m x v hv order st hbus (order_paths_nodup order horder)
    (horder.mem_iff.mpr hx)

theorem entryValue_direct (m : RawMap) (x : Nat × LookupEntry) (r : Int)
    (hr : m x.1 = some r) (hc : x.2.Calculated = false) :
    entryValue m x = some ((float64.ofInt r).div x.2.Divider) := by
  simp [entryValue, hr, hc]

theorem entryValue_derived (m : RawMap) (x : Nat × LookupEntry) (f r : Int)
    (hf : m x.1 = some f) (hr : m (x.1 + (1 <<< 8)) = some r) (hc : x.2.Calculated = true) :
    entryValue m x =
      some (((float64.ofInt f).div x.2.Divider).sub ((float64.ofInt r).div x.2.Divider)) := by
  have hr1 : m (x.1 + 256) = some r := hr
  simp [entryValue, hf, hr1, hc]

theorem entryValue_missing_pair (m : RawMap) (x : Nat × LookupEntry)
    (hr : m (x.1 + (1 <<< 8)) = none) (hc : x.2.Calculated = true) :
    entryValue m x = none := by
  unfold entryValue
  cases m x.1 with
  | none => rfl
  | some val =>
    have hr1 : m (x.1 + 256) = none := hr
    simp [hr1, hc]

theorem entryValue_absent (m : RawMap) (x : Nat × LookupEntry) (h : m x.1 = none) :
    entryValue m x = none := by
  simp [entryValue, h]

theorem decode_voltagePacket :
    decode voltagePacket = .ok (RawMap.set (fun _ => none) 8196 229900) := by
  rfl

theorem decode_powerPacket :
    decode powerPacket =
      .ok (RawMap.set (RawMap.set (fun _ => none) 260 36000000) 516 3600000) := by
  rfl

theorem decode_forwardOnlyPacket :
    decode forwardOnlyPacket = .ok (RawMap.set (RawMap.set (fun _ => none) 260 7) 5380 5) := by
  rfl

theorem decode_missingPairPacket :
    decode missingPairPacket =
      .ok (RawMap.set (RawMap.set (fun _ => none) 260 7) 8196 229900) := by
  rfl

/-- Every value of the map the body loop ends with was in the map it started
from or was stored by a pass of the loop body at a position below `dlen`. -/
theorem bodyLoop_done_provenance (b : List byte) (dlen : Nat) :
    ∀ (fuel pos : Nat) (m m1 : RawMap), bodyLoop b dlen fuel pos m = .done m1 →
      ∀ (id : Nat) (r : Int), m1 id = some r →
        m id = some r ∨
          ∃ p p1, pos ≤ p ∧ p < dlen ∧ loopBody b p = some (id, r, p1) := by
  intro fuel
  induction fuel with
  | zero => intro pos m m1 h; simp [bodyLoop] at h
  | succ fuel ih =>
    intro pos m m1 h id r hr
    unfold bodyLoop at h
    split at h
    · rename_i hlt
      split at h
      · cases h
      · rename_i id0 v0 pos1 hb
        have hpos := (loopBody_some_bounds b pos id0 v0 pos1 hb).1
        rcases ih pos1 _ m1 h id r hr with h1 | ⟨p, p1, hp, hpd, hl⟩
        · unfold RawMap.set at h1
          by_cases hid : id = id0
          · rw [if_pos hid] at h1
            injection h1 with h1
            subst hid h1
            exact Or.inr ⟨pos, pos1, le_refl _, hlt, hb⟩
          · rw [if_neg hid] at h1
            exact Or.inl h1
        · exact Or.inr ⟨p, p1, by omega, hpd, hl⟩
    · injection h with h
      subst h
      exact Or.inl hr

/-- Every value of the raw value mapping of a decoded packet is the value a
pass of the loop body stored, unscaled, for a record at or after offset 20. -/
theorem decode_ok_provenance (b : List byte) (m : RawMap) (h : decode b = .ok m)
    (id : Nat) (r : Int) (hr : m id = some r) :
    ∃ p p1, 20 ≤ p ∧ loopBody b p = some (id, r, p1) := by
  unfold decode at h
  repeat' split at h
  all_goals first | (cases h; done) | skip
  rename_i m1 hloop
  injection h with h
  subst h
  rcases bodyLoop_done_provenance b _ _ _ _ _ hloop id r hr with h1 | ⟨p, p1, hp, _, hl⟩
  · cases h1
  · exact ⟨p, p1, hp, hl⟩

theorem direct_entry_dividers :
    ∀ x ∈ actualLookup, x.2.Calculated = false →
      (((x.2.Unit = "V" ∨ x.2.Unit = "A") ∧ x.2.Divider = float64.ofInt 1000) ∨
        (x.2.Unit = "kWh" ∧ x.2.Divider = float64.ofInt 3600000)) := by
  decide

theorem derived_entry_dividers :
    ∀ x ∈ actualLookup, x.2.Calculated = true → x.2.Divider = float64.ofInt 10 := by
  decide

theorem measurementId_eq_add (channel type : Nat) (h : type < 256) :
    measurementId channel type = channel * 256 + type := by
  unfold measurementId
  rw [shiftLeft_lor_eq_add type channel 8 (by omega)]
  norm_num

/-! ## Resolution of the lookup entries -/

/-- C6. For a packet that decodes to the raw value mapping `m`, with the bus
connected, a lookup entry that is not calculated and whose identifier has the
raw value `r` in `m` is published with the value `float64(r) / Divider`: the
store holds that value and its text at the path of the entry and the signal
was emitted. The divider is 1000 for the entries in V and A and 3600000 for
the entries in kWh. The raw value `r` itself is what a pass of the loop body
stored for a record of the packet, not a scaled value. -/
theorem C6_direct_entry_value (order : List (Nat × LookupEntry))
    (horder : order.Perm actualLookup) (st : State) (hbus : st.dbusConnected = true)
    (b : List byte) (m : RawMap) (hdec : decode b = .ok m) (id : Nat) (e : LookupEntry)
    (he : (id, e) ∈ actualLookup) (hcalc : e.Calculated = false) (r : Int)
    (hr : m id = some r) :
    Published (msgHandler order st b).state e ((float64.ofInt r).div e.Divider) ∧
      (((e.Unit = "V" ∨ e.Unit = "A") ∧ e.Divider = float64.ofInt 1000) ∨
        (e.Unit = "kWh" ∧ e.Divider = float64.ofInt 3600000)) ∧
      (∃ p p1, 20 ≤ p ∧ loopBody b p = some (id, r, p1)) :=
  ⟨msgHandler_published order horder st hbus b m hdec (id, e) he _
      (entryValue_direct m (id, e) r hr hcalc),
    direct_entry_dividers (id, e) he hcalc,
    decode_ok_provenance b m hdec id r hr⟩

/-- C6, at the datagram with the voltage of phase 1: raw value 229900,
divider 1000. -/
theorem C6_direct_entry_value_witness :
    Published (msgHandler actualLookup emptyState voltagePacket).state
        ⟨"/Ac/L1/Voltage", "V", float64.ofInt 1000, false⟩
        ((float64.ofInt 229900).div (float64.ofInt 1000)) ∧
      ((("V" = "V" ∨ "V" = "A") ∧ float64.ofInt 1000 = float64.ofInt 1000) ∨
        ("V" = "kWh" ∧ float64.ofInt 1000 = float64.ofInt 3600000)) ∧
      (∃ p p1, 20 ≤ p ∧ loopBody voltagePacket p = some (8196, 229900, p1)) :=
  C6_direct_entry_value actualLookup (List.Perm.refl _) emptyState rfl voltagePacket _
    decode_voltagePacket 8196 ⟨"/Ac/L1/Voltage", "V", float64.ofInt 1000, false⟩
    (by decide) rfl 229900 (by decide)

/-- C7, refuted. The identifier of `/Ac/Power` and the identifier paired with
it, `id + (1<<8)`, are not built from a common channel: no channel gives both
identifiers, whatever the type bytes. -/
theorem C7_pair_does_not_share_channel :
    ¬ ∃ channel type1 type2 : Nat, type1 < 256 ∧ type2 < 256 ∧
        measurementId channel type1 = (OBIS_ID_MEASURE ||| (1 <<< 8)) ∧
        measurementId channel type2 = (OBIS_ID_MEASURE ||| (1 <<< 8)) + (1 <<< 8) := by
  rintro ⟨channel, type1, type2, h1, h2, e1, e2⟩
  rw [measurementId_eq_add channel type1 h1] at e1
  rw [measurementId_eq_add channel type2 h2] at e2
  have c1 : (OBIS_ID_MEASURE ||| (1 <<< 8)) = 260 := by decide
  rw [c1] at e1 e2
  omega

/-- C7, amended. For a packet that decodes to the raw value mapping `m`, with
the bus connected, a calculated lookup entry whose identifier `id` has the raw
value `f` and whose paired identifier `id + (1<<8)` has the raw value `r` is
published with the value `float64(f) / Divider - float64(r) / Divider`. The
paired identifier has the type of `id` and the channel after the channel of
`id`. -/
theorem C7_derived_entry_value (order : List (Nat × LookupEntry))
    (horder : order.Perm actualLookup) (st : State) (hbus : st.dbusConnected = true)
    (b : List byte) (m : RawMap) (hdec : decode b = .ok m) (id : Nat) (e : LookupEntry)
    (he : (id, e) ∈ actualLookup) (hcalc : e.Calculated = true) (f r : Int)
    (hf : m id = some f) (hr : m (id + (1 <<< 8)) = some r) :
    Published (msgHandler order st b).state e
        (((float64.ofInt f).div e.Divider).sub ((float64.ofInt r).div e.Divider)) ∧
      (∀ channel type : Nat, type < 256 → id = measurementId channel type →
        id + (1 <<< 8) = measurementId (channel + 1) type) := by
  refine ⟨msgHandler_published order horder st hbus b m hdec (id, e) he _
      (entryValue_derived m (id, e) f r hf hr hcalc), ?_⟩
  intro channel type ht hid
  rw [hid, measurementId_eq_add channel type ht, measurementId_eq_add (channel + 1) type ht]
  omega

/-- C7 amended, at the datagram with the power-measure pair. -/
theorem C7_derived_entry_value_witness :
    Published (msgHandler actualLookup emptyState powerPacket).state
        ⟨"/Ac/Power", "W", float64.ofInt 10, true⟩
        (((float64.ofInt 36000000).div (float64.ofInt 10)).sub
          ((float64.ofInt 3600000).div (float64.ofInt 10))) ∧
      (∀ channel type : Nat, type < 256 → 260 = measurementId channel type →
        260 + (1 <<< 8) = measurementId (channel + 1) type) :=
  C7_derived_entry_value actualLookup (List.Perm.refl _) emptyState rfl powerPacket _
    decode_powerPacket 260 ⟨"/Ac/Power", "W", float64.ofInt 10, true⟩
    (by decide) rfl 36000000 3600000 (by decide) (by decide)

/-- C8, refuted. For the datagram with the power-measure pair (raw forward
36000000, raw reverse 3600000), with the bus connected, the value stored for
`/Ac/Power` is 3240000.0 and not 9.0. -/
theorem C8_power_example_is_not_nine :
    (msgHandler actualLookup emptyState powerPacket).state.victronValues 0 "/Ac/Power" =
        some (.float (float64.ofInt 3240000)) ∧
      (msgHandler actualLookup emptyState powerPacket).state.victronValues 0 "/Ac/Power" ≠
        some (.float (float64.ofInt 9)) := by
  decide

theorem power_example_value :
    ((float64.ofInt 36000000).div (float64.ofInt 10)).sub
        ((float64.ofInt 3600000).div (float64.ofInt 10)) = float64.ofInt 3240000 := by
  decide

/-- C8, amended. For a packet that decodes, with the bus connected, in which
the identifier of a power-measure (calculated) lookup entry has the raw value
36000000 and its paired identifier the raw value 3600000, the value published
for the path of the entry is 3240000.0, that is 36000000 / 10 - 3600000 / 10:
the divider of these entries is 10. -/
theorem C8_power_example_value (order : List (Nat × LookupEntry))
    (horder : order.Perm actualLookup) (st : State) (hbus : st.dbusConnected = true)
    (b : List byte) (m : RawMap) (hdec : decode b = .ok m) (id : Nat) (e : LookupEntry)
    (he : (id, e) ∈ actualLookup) (hcalc : e.Calculated = true)
    (hf : m id = some 36000000) (hr : m (id + (1 <<< 8)) = some 3600000) :
    Published (msgHandler order st b).state e (float64.ofInt 3240000) ∧
      e.Divider = float64.ofInt 10 := by
  have hd : e.Divider = float64.ofInt 10 := derived_entry_dividers (id, e) he hcalc
  have hv := entryValue_derived m (id, e) 36000000 3600000 hf hr hcalc
  simp only [hd, power_example_value] at hv
  exact ⟨msgHandler_published order horder st hbus b m hdec (id, e) he _ hv, hd⟩

/-- C8 amended, at the datagram with the power-measure pair. -/
theorem C8_power_example_value_witness :
    Published (msgHandler actualLookup emptyState powerPacket).state
        ⟨"/Ac/Power", "W", float64.ofInt 10, true⟩ (float64.ofInt 3240000) ∧
      float64.ofInt 10 = float64.ofInt 10 :=
  C8_power_example_value actualLookup (List.Perm.refl _) emptyState rfl powerPacket _
    decode_powerPacket 260 ⟨"/Ac/Power", "W", float64.ofInt 10, true⟩
    (by decide) rfl (by decide) (by decide)

/-- C9, refuted. The datagram with the forward power records of channels 1
and 21 and no reverse record decodes, both identifiers are in the raw value
mapping, the pair of the first is missing, and, with the bus connected,
`msgHandler` publishes nothing for the other entry present in the packet,
`/Ac/L1/Power`: no signal is emitted and the store has no value for it. -/
theorem C9_other_entry_not_published :
    (∃ m, decode forwardOnlyPacket = .ok m ∧
        m 260 = some 7 ∧ m (260 + (1 <<< 8)) = none ∧ m 5380 = some 5) ∧
      ((260, (⟨"/Ac/Power", "W", float64.ofInt 10, true⟩ : LookupEntry)) ∈ actualLookup ∧
        (5380, (⟨"/Ac/L1/Power", "W", float64.ofInt 10, true⟩ : LookupEntry)) ∈ actualLookup) ∧
      (msgHandler actualLookup emptyState forwardOnlyPacket).state.emitted = [] ∧
      (msgHandler actualLookup emptyState forwardOnlyPacket).state.victronValues 0
        "/Ac/L1/Power" = none :=
  ⟨⟨_, decode_forwardOnlyPacket, by decide, by decide, by decide⟩, by decide, by decide,
    by decide⟩

/-- C9, amended. For a packet that decodes to the raw value mapping `m` in
which the identifier `id` of a calculated lookup entry is present and
`id + (1<<8)` is not, `msgHandler` returns, the store keeps its value and its
text at the path of that entry and no signal is emitted for that path; with
the bus connected, every lookup entry whose identifier is present in `m` and
that is not calculated, or is calculated with its own paired identifier
present, is published. -/
theorem C9_missing_pair_skipped (order : List (Nat × LookupEntry))
    (horder : order.Perm actualLookup) (st : State) (b : List byte) (m : RawMap)
    (hdec : decode b = .ok m) (id : Nat) (e : LookupEntry) (he : (id, e) ∈ actualLookup)
    (hcalc : e.Calculated = true) (_hid : (m id).isSome = true)
    (hpair : m (id + (1 <<< 8)) = none) :
    (msgHandler order st b).exit = .returned ∧
      (∀ k, (msgHandler order st b).state.victronValues k e.Path = st.victronValues k e.Path) ∧
      ((msgHandler order st b).state.emitted.filter fun s => s.path = e.Path) =
        (st.emitted.filter fun s => s.path = e.Path) ∧
      (st.dbusConnected = true → ∀ x ∈ actualLookup, ∀ r : Int, m x.1 = some r →
        (x.2.Calculated = false →
          Published (msgHandler order st b).state x.2 ((float64.ofInt r).div x.2.Divider)) ∧
        (x.2.Calculated = true → ∀ r2 : Int, m (x.1 + (1 <<< 8)) = some r2 →
          Published (msgHandler order st b).state x.2
            (((float64.ofInt r).div x.2.Divider).sub ((float64.ofInt r2).div x.2.Divider)))) := by
  have hskip : ∀ x ∈ order, x.2.Path = e.Path → entryValue m x = none := by
    intro x hx hp
    have hxa : x ∈ actualLookup := horder.mem_iff.mp hx
    have hinj : ∀ y ∈ actualLookup, ∀ z ∈ actualLookup, y.2.Path = z.2.Path → y = z := by
      decide
    have hxe : x = (id, e) := hinj x hxa (id, e) he hp
    subst hxe
    exact entryValue_missing_pair m (id, e) hpair hcalc
  refine ⟨by rw [msgHandler_of_decode_ok order st b m hdec], ?_, ?_, ?_⟩
  · intro k
    rw [msgHandler_state_victronValues order st b m hdec]
    exact resolveAll_victronValues_frame m e.Path k order st hskip
  · rw [msgHandler_state_emitted order st b m hdec]
    exact resolveAll_emitted_frame m e.Path order st hskip
  · intro hbus x hx r hr
    exact ⟨fun hc => msgHandler_published order horder st hbus b m hdec x hx _
        (entryValue_direct m x r hr hc),
      fun hc r2 hr2 => msgHandler_published order horder st hbus b m hdec x hx _
        (entryValue_derived m x r r2 hr hr2 hc)⟩

/-- C9 amended, at the datagram with the forward power record of channel 1,
no reverse record, and the voltage of phase 1. -/
theorem C9_missing_pair_skipped_witness :
    (msgHandler actualLookup emptyState missingPairPacket).exit = .returned ∧
      (∀ k, (msgHandler actualLookup emptyState missingPairPacket).state.victronValues k
          "/Ac/Power" = emptyState.victronValues k "/Ac/Power") ∧
      ((msgHandler actualLookup emptyState missingPairPacket).state.emitted.filter
          fun s => s.path = "/Ac/Power") =
        (emptyState.emitted.filter fun s => s.path = "/Ac/Power") ∧
      (emptyState.dbusConnected = true → ∀ x ∈ actualLookup, ∀ r : Int,
        RawMap.set (RawMap.set (fun _ => none) 260 7) 8196 229900 x.1 = some r →
        (x.2.Calculated = false →
          Published (msgHandler actualLookup emptyState missingPairPacket).state x.2
            ((float64.ofInt r).div x.2.Divider)) ∧
        (x.2.Calculated = true → ∀ r2 : Int,
          RawMap.set (RawMap.set (fun _ => none) 260 7) 8196 229900 (x.1 + (1 <<< 8)) =
            some r2 →
          Published (msgHandler actualLookup emptyState missingPairPacket).state x.2
            (((float64.ofInt r).div x.2.Divider).sub ((float64.ofInt r2).div x.2.Divider)))) :=
  C9_missing_pair_skipped actualLookup (List.Perm.refl _) emptyState missingPairPacket _
    decode_missingPairPacket 260 ⟨"/Ac/Power", "W", float64.ofInt 10, true⟩
    (by decide) rfl (by decide) (by decide)

/-! ## Frame of `msgHandler` on the store -/

theorem basicPaths_not_lookup_paths :
    ∀ p ∈ basicPaths, ∀ x ∈ actualLookup, x.2.Path ≠ p := by
  decide

/-- C10. A path of the store whose value or text differs after `msgHandler`
is the path of a lookup entry whose own identifier is in the raw value mapping
of the packet (so the packet decoded); every other path has exactly the
variant it had before. In particular `/Connected` and the other static paths
are never changed. -/
theorem C10_store_frame (order : List (Nat × LookupEntry))
    (horder : order.Perm actualLookup) (st : State) (b : List byte) :
    (∀ (k : Int) (p : String),
        (msgHandler order st b).state.victronValues k p ≠ st.victronValues k p →
        ∃ m, decode b = .ok m ∧ ∃ x ∈ actualLookup, x.2.Path = p ∧ (m x.1).isSome = true) ∧
      (∀ p ∈ basicPaths, ∀ k : Int,
        (msgHandler order st b).state.victronValues k p = st.victronValues k p) := by
  have key : ∀ (m : RawMap), decode b = .ok m → ∀ (k : Int) (p : String),
      (∀ x ∈ actualLookup, x.2.Path = p → m x.1 = none) →
      (msgHandler order st b).state.victronValues k p = st.victronValues k p := by
    intro m hdec k p h
    rw [msgHandler_state_victronValues order st b m hdec]
    exact resolveAll_victronValues_frame m p k order st
      (fun x hx hp => entryValue_absent m x (h x (horder.mem_iff.mp hx) hp))
  constructor
  · intro k p hne
    cases hdec : decode b with
    | ok m =>
      refine ⟨m, rfl, ?_⟩
      by_contra hcon
      apply hne
      apply key m hdec k p
      intro x hx hp
      cases hm : m x.1 with
      | none => rfl
      | some r => exact absurd ⟨x, hx, hp, by simp [hm]⟩ hcon
    | invalidHeader => exact absurd (by simp [msgHandler, hdec]) hne
    | fatal => exact absurd (by simp [msgHandler, hdec]) hne
    | panic => exact absurd (by simp [msgHandler, hdec]) hne
    | outOfFuel => exact absurd (by simp [msgHandler, hdec]) hne
  · intro p hp k
    cases hdec : decode b with
    | ok m =>
      exact key m hdec k p
        (fun x hx hxp => absurd hxp (basicPaths_not_lookup_paths p hp x hx))
    | invalidHeader => simp [msgHandler, hdec]
    | fatal => simp [msgHandler, hdec]
    | panic => simp [msgHandler, hdec]
    | outOfFuel => simp [msgHandler, hdec]

/-- C10, at the datagram with the voltage of phase 1. -/
theorem C10_store_frame_witness :
    (∀ (k : Int) (p : String),
        (msgHandler actualLookup emptyState voltagePacket).state.victronValues k p ≠
          emptyState.victronValues k p →
        ∃ m, decode voltagePacket = .ok m ∧
          ∃ x ∈ actualLookup, x.2.Path = p ∧ (m x.1).isSome = true) ∧
      (∀ p ∈ basicPaths, ∀ k : Int,
        (msgHandler actualLookup emptyState voltagePacket).state.victronValues k p =
          emptyState.victronValues k p) :=
  C10_store_frame actualLookup (List.Perm.refl _) emptyState voltagePacket

/-! ## Decoding an encoded chain of records -/

theorem Uint32_bigEndian (v : Nat) (hv : v < 2 ^ 32) : Uint32 (bigEndian 4 v) = some v := by
  simp only [bigEndian, Uint32, Fin.ofNat, Option.some.injEq]
  rw [lor_shiftLeft_eq_add _ _ 8 (by omega), lor_shiftLeft_eq_add _ _ 16 (by omega),
    lor_shiftLeft_eq_add _ _ 24 (by omega)]
  omega

theorem Uint64_bigEndian (v : Nat) (hv : v < 2 ^ 64) : Uint64 (bigEndian 8 v) = some v := by
  simp only [bigEndian, Uint64, Fin.ofNat, Option.some.injEq]
  rw [lor_shiftLeft_eq_add _ _ 8 (by omega), lor_shiftLeft_eq_add _ _ 16 (by omega),
    lor_shiftLeft_eq_add _ _ 24 (by omega), lor_shiftLeft_eq_add _ _ 32 (by omega),
    lor_shiftLeft_eq_add _ _ 40 (by omega), lor_shiftLeft_eq_add _ _ 48 (by omega),
    lor_shiftLeft_eq_add _ _ 56 (by omega)]
  omega

theorem bigEndian_length (n v : Nat) : (bigEndian n v).length = n := by
  induction n with
  | zero => rfl
  | succ n ih => simp [bigEndian, ih]

theorem encodeRecord_length (r : Record) : (encodeRecord r).length = r.size := by
  unfold encodeRecord Record.size
  by_cases h : r.type = 8 <;> simp [h, bigEndian_length]

theorem encodeRecords_length (rs : List Record) : (encodeRecords rs).length = chainSize rs := by
  induction rs with
  | nil => rfl
  | cons r rs ih => simp [encodeRecords, chainSize, encodeRecord_length, ih]

/-- The loop body, at the start of an encoded well-formed record, stores the
identifier of the record with its value converted to `int` and moves to the
end of the record. -/
theorem loopBody_encodeRecord (pre rest : List byte) (r : Record) (hwf : r.WellFormed) :
    loopBody (pre ++ (encodeRecord r ++ rest)) pre.length =
      some (r.id, toInt64 r.value, pre.length + r.size) := by
  obtain ⟨hc, ht, hv⟩ := hwf
  have hdrop : sliceFrom (pre ++ (encodeRecord r ++ rest)) pre.length =
      some (encodeRecord r ++ rest) := by
    simp [sliceFrom]
  unfold loopBody
  rw [hdrop]
  have hch : measurementId ((r.channel / 256 % 256) <<< 8 ||| (r.channel % 256)) r.type = r.id := by
    unfold Record.id
    rw [shiftLeft_lor_eq_add _ _ 8 (by omega)]
    congr 1
    omega
  have hi2 : index (encodeRecord r ++ rest) 2 = some r.type := by
    simp [index, encodeRecord, bigEndian, Fin.ofNat]
    omega
  have hi0 : index (encodeRecord r ++ rest) 0 = some (r.channel / 256 % 256) := by
    simp [index, encodeRecord, bigEndian, Fin.ofNat]
  have hi1 : index (encodeRecord r ++ rest) 1 = some (r.channel % 256) := by
    simp [index, encodeRecord, bigEndian, Fin.ofNat]
  simp only [hi2, hi0, hi1, hch]
  by_cases h8 : r.type = 8
  · have hv64 : r.value < 2 ^ 64 := by simpa [h8] using hv
    have hsl : slice (encodeRecord r ++ rest) 4 (4 + 8) = some (bigEndian 8 r.value) := by
      unfold encodeRecord
      rw [if_pos h8]
      simp [slice, bigEndian_length, bigEndian]
    have hc8 : r.type = OBIS_ID_COUNTER := h8
    simp only [hc8, if_true, hsl, Option.some_bind, Uint64_bigEndian r.value hv64,
      Option.map_some']
    simp [Record.size, h8]
  · have hv32 : r.value < 2 ^ 32 := by simpa [h8] using hv
    have hsl : slice (encodeRecord r ++ rest) 4 (4 + 4) = some (bigEndian 4 r.value) := by
      unfold encodeRecord
      rw [if_neg h8]
      simp [slice, bigEndian_length, bigEndian]
    have hc8 : ¬ r.type = OBIS_ID_COUNTER := h8
    simp only [hc8, if_false, hsl, Option.some_bind, Uint32_bigEndian r.value hv32,
      Option.map_some']
    simp [Record.size, h8]

/-- The body loop over an encoded chain of well-formed records stores, in
order, the records that start below `dlen`, when `dlen` does not pass the end
of the chain; the bytes after the chain are not looked at. -/
theorem bodyLoop_encodeRecords (dlen : Nat) (rest : List byte) :
    ∀ (rs : List Record), (∀ r ∈ rs, r.WellFormed) →
      ∀ (pre : List byte) (fuel : Nat) (m : RawMap),
        dlen ≤ pre.length + chainSize rs → 0 < fuel → dlen < fuel + pre.length →
        bodyLoop (pre ++ (encodeRecords rs ++ rest)) dlen fuel pre.length m =
          .done (storeRecords m (recordsBelow dlen pre.length rs)) := by
  intro rs
  induction rs with
  | nil =>
    intro _ pre fuel m hd hf _
    obtain ⟨f, rfl⟩ : ∃ f, fuel = f + 1 := ⟨fuel - 1, by omega⟩
    simp only [chainSize] at hd
    unfold bodyLoop
    rw [if_neg (by omega)]
    rfl
  | cons r rs ih =>
    intro hwf pre fuel m hd hf hfd
    obtain ⟨f, rfl⟩ : ∃ f, fuel = f + 1 := ⟨fuel - 1, by omega⟩
    unfold bodyLoop
    by_cases hlt : pre.length < dlen
    · rw [if_pos hlt]
      have hb : pre ++ (encodeRecords (r :: rs) ++ rest) =
          pre ++ (encodeRecord r ++ (encodeRecords rs ++ rest)) := by
        simp [encodeRecords]
      have hb2 : pre ++ (encodeRecords (r :: rs) ++ rest) =
          (pre ++ encodeRecord r) ++ (encodeRecords rs ++ rest) := by
        simp [encodeRecords]
      have hl := loopBody_encodeRecord pre (encodeRecords rs ++ rest) r
        (hwf r (List.mem_cons_self _ _))
      rw [← hb] at hl
      rw [hl]
      simp only
      have hlen : (pre ++ encodeRecord r).length = pre.length + r.size := by
        simp [encodeRecord_length]
      have hcs : chainSize (r :: rs) = r.size + chainSize rs := rfl
      have hsz : 0 < r.size := by unfold Record.size; split <;> omega
      have := ih (fun x hx => hwf x (List.mem_cons_of_mem _ hx)) (pre ++ encodeRecord r) f
        (m.set r.id (toInt64 r.value)) (by omega) (by omega) (by omega)
      rw [hlen, ← hb2] at this
      rw [this]
      simp [recordsBelow, hlt, storeRecords]
    · rw [if_neg hlt]
      simp [recordsBelow, hlt, storeRecords]

theorem field16_append (hdr t : List byte) (off : Nat) (h : off + 1 < hdr.length) :
    field16 (hdr ++ t) off = field16 hdr off := by
  unfold field16
  rw [List.getD_append _ _ _ _ (by omega), List.getD_append _ _ _ _ h]

/-- Decoding a datagram made of a valid header, an encoded chain of
well-formed records and any further bytes, when the payload length field does
not pass the end of the chain: the raw value mapping holds the records that
start below the offset given by the payload length field. -/
theorem decode_encodeRecords (hdr : List byte) (dlen : Nat) (hh : ValidHeader hdr dlen)
    (rs : List Record) (hwf : ∀ r ∈ rs, r.WellFormed) (trailing : List byte)
    (hd : dlen ≤ 20 + chainSize rs) :
    decode (hdr ++ (encodeRecords rs ++ trailing)) =
      .ok (storeRecords (fun _ => none) (recordsBelow dlen 20 rs)) := by
  obtain ⟨hlen, htag, h12, h14, h16⟩ := hh
  have htake : (hdr ++ (encodeRecords rs ++ trailing)).take 4 = [83, 77, 65, 0] := by
    rw [List.take_append_of_le_length (by omega)]
    exact htag
  rw [decode_of_header _ (by simp; omega) htake,
    field16_append hdr _ 14 (by omega), field16_append hdr _ 16 (by omega),
    field16_append hdr _ 12 (by omega), h12, h14, h16]
  have := bodyLoop_encodeRecords dlen trailing rs hwf hdr (dlen + 1) (fun _ => none)
    (by omega) (by omega) (by omega)
  rw [hlen] at this
  simp [this]

theorem recordsBelow_getElem? (dlen : Nat) :
    ∀ (rs : List Record) (pos i : Nat), i < rs.length →
      pos + chainSize (rs.take i) < dlen → (recordsBelow dlen pos rs)[i]? = rs[i]? := by
  intro rs
  induction rs with
  | nil => intro pos i hi; simp at hi
  | cons r rs ih =>
    intro pos i hi hlt
    cases i with
    | zero =>
      simp only [List.take_zero, chainSize] at hlt
      simp [recordsBelow, show pos < dlen by omega]
    | succ j =>
      simp only [List.take_succ_cons, chainSize] at hlt
      simp only [List.length_cons] at hi
      simp only [recordsBelow, show pos < dlen by omega, if_true, List.getElem?_cons_succ]
      exact ih (pos + r.size) j (by omega) (by omega)

theorem recordsBelow_eq_self (dlen : Nat) :
    ∀ (rs : List Record) (pos : Nat), (rs ≠ [] → pos + chainSize rs.dropLast < dlen) →
      recordsBelow dlen pos rs = rs := by
  intro rs
  induction rs with
  | nil => intro pos _; rfl
  | cons r rs ih =>
    intro pos h
    have h1 := h (by simp)
    cases rs with
    | nil =>
      simp only [List.dropLast_single, chainSize] at h1
      simp [recordsBelow, show pos < dlen by omega]
    | cons r2 rs2 =>
      simp only [List.dropLast_cons₂, chainSize] at h1
      rw [show recordsBelow dlen pos (r :: r2 :: rs2) =
          (if pos < dlen then r :: recordsBelow dlen (pos + r.size) (r2 :: rs2) else []) from rfl,
        if_pos (by omega), ih (pos + r.size) (fun _ => by omega)]

theorem storeRecords_of_not_mem (k : Nat) :
    ∀ (rs : List Record) (m : RawMap), (∀ r ∈ rs, r.id ≠ k) → storeRecords m rs k = m k := by
  intro rs
  induction rs with
  | nil => intro m _; rfl
  | cons r rs ih =>
    intro m h
    simp only [storeRecords, List.foldl_cons] at ih ⊢
    rw [ih _ (fun x hx => h x (List.mem_cons_of_mem _ hx))]
    simp [RawMap.set, (h r (List.mem_cons_self _ _)).symm]

theorem storeRecords_of_mem :
    ∀ (rs : List Record) (m : RawMap), (rs.map Record.id).Nodup → ∀ r ∈ rs,
      storeRecords m rs r.id = some (toInt64 r.value) := by
  intro rs
  induction rs with
  | nil => intro m _ r hr; cases hr
  | cons x xs ih =>
    intro m hnd r hr
    rw [List.map_cons, List.nodup_cons] at hnd
    rcases List.mem_cons.mp hr with hrx | hrx
    · subst hrx
      have := storeRecords_of_not_mem r.id xs (m.set r.id (toInt64 r.value))
        (fun y hy hid => hnd.1 (hid ▸ List.mem_map_of_mem Record.id hy))
      simp only [storeRecords, List.foldl_cons] at this ⊢
      rw [this]
      simp [RawMap.set]
    · have := ih (m.set x.id (toInt64 x.value)) hnd.2 r hrx
      simpa only [storeRecords, List.foldl_cons] using this

theorem toInt64_of_lt (v : Nat) (h : v < 2 ^ 63) : toInt64 v = (v : Int) := by
  unfold toInt64
  have h1 : v % 2 ^ 64 = v := Nat.mod_eq_of_lt (by omega)
  rw [h1, if_pos h]

theorem header_valid (dlen : Nat) (h : dlen < 2 ^ 16) : ValidHeader (header dlen) dlen := by
  refine ⟨by simp [header], by simp [header], ?_, by simp [field16, header]; rfl,
    by simp [field16, header]; rfl⟩
  simp [field16, header, Fin.ofNat]
  omega

/-! ## The body of a datagram -/

/-- C2, refuted. In `twoRecordPacket` the payload length field is 28 and the
two records of the chain take 16 bytes from offset 20, so both lie inside the
first 28 bytes of the payload; the packet decodes, yet the second record is
not in the raw value mapping. -/
theorem C2_second_record_not_inserted :
    field16 twoRecordPacket 12 = 28 ∧
      chainSize [⟨1, 4, 0, 36000000⟩, ⟨2, 4, 0, 3600000⟩] ≤ 28 ∧
      ∃ m, decode twoRecordPacket = .ok m ∧
        m (Record.id ⟨1, 4, 0, 36000000⟩) = some 36000000 ∧
        m (Record.id ⟨2, 4, 0, 3600000⟩) = none :=
  ⟨by decide, by decide, RawMap.set (fun _ => none) 260 36000000, by rfl, by decide, by decide⟩

/-- C2, amended. For a datagram made of a valid header with payload length
field `dlen`, a chain of well-formed records encoded from offset 20 and any
trailing bytes, where `dlen` does not pass the end of the chain: the loop reads
records while the offset of the record, counted from the start of the datagram,
is below `dlen`. The raw value mapping is the result of storing, in order, the
records of the chain that start below offset `dlen`, whatever the trailing
bytes are; each record whose offset (20 plus the sizes of the records before
it) is below `dlen` is among them. -/
theorem C2_records_below_length_inserted (hdr : List byte) (dlen : Nat)
    (hh : ValidHeader hdr dlen) (rs : List Record) (hwf : ∀ r ∈ rs, r.WellFormed)
    (trailing : List byte) (hd : dlen ≤ 20 + chainSize rs) :
    decode (hdr ++ (encodeRecords rs ++ trailing)) =
        .ok (storeRecords (fun _ => none) (recordsBelow dlen 20 rs)) ∧
      (∀ i, i < rs.length → 20 + chainSize (rs.take i) < dlen →
        (recordsBelow dlen 20 rs)[i]? = rs[i]?) :=
  ⟨decode_encodeRecords hdr dlen hh rs hwf trailing hd,
    fun i hi hlt => recordsBelow_getElem? dlen rs 20 i hi hlt⟩

/-- C2 amended, at a header with payload length field 36, the two power
records and three trailing bytes. -/
theorem C2_records_below_length_inserted_witness :
    decode (header 36 ++
        (encodeRecords [⟨1, 4, 0, 36000000⟩, ⟨2, 4, 0, 3600000⟩] ++ [0xFF, 0xFF, 0xFF])) =
        .ok (storeRecords (fun _ => none)
          (recordsBelow 36 20 [⟨1, 4, 0, 36000000⟩, ⟨2, 4, 0, 3600000⟩])) ∧
      (∀ i, i < [(⟨1, 4, 0, 36000000⟩ : Record), ⟨2, 4, 0, 3600000⟩].length →
        20 + chainSize ([(⟨1, 4, 0, 36000000⟩ : Record), ⟨2, 4, 0, 3600000⟩].take i) < 36 →
        (recordsBelow 36 20 [⟨1, 4, 0, 36000000⟩, ⟨2, 4, 0, 3600000⟩])[i]? =
          [(⟨1, 4, 0, 36000000⟩ : Record), ⟨2, 4, 0, 3600000⟩][i]?) :=
  C2_records_below_length_inserted (header 36) 36 (header_valid 36 (by decide))
    [⟨1, 4, 0, 36000000⟩, ⟨2, 4, 0, 3600000⟩] (by decide) [0xFF, 0xFF, 0xFF] (by decide)

/-! ## Round trip -/

/-- C1, refuted. The counter record with channel 1 and the 8-byte value
`2^64 - 1` is well-formed; encoded in a datagram and decoded, its identifier
maps to `-1`, not to the encoded value. -/
theorem C1_counter_value_wraps :
    Record.WellFormed ⟨1, 8, 0, 2 ^ 64 - 1⟩ ∧
      ∃ m, decode bigCounterPacket = .ok m ∧
        m (Record.id ⟨1, 8, 0, 2 ^ 64 - 1⟩) = some (-1) ∧
        m (Record.id ⟨1, 8, 0, 2 ^ 64 - 1⟩) ≠ some (((2 ^ 64 - 1 : Nat) : Int)) :=
  ⟨by decide, RawMap.set (fun _ => none) 264 (-1), by rfl, by decide, by decide⟩

/-- C1, amended. For a chain of well-formed records with pairwise distinct
identifiers whose values are below `2^63` (so also every 4-byte value),
encoded from offset 20 after a valid header whose payload length field `dlen`
lies above the offset of the last record and not above the end of the chain:
the datagram decodes, the raw value mapping maps the identifier of each record
to exactly its value, and it has no other key. -/
theorem C1_round_trip (hdr : List byte) (dlen : Nat) (hh : ValidHeader hdr dlen)
    (rs : List Record) (hwf : ∀ r ∈ rs, r.WellFormed ∧ r.value < 2 ^ 63)
    (hnd : (rs.map Record.id).Nodup)
    (hreach : rs ≠ [] → 20 + chainSize rs.dropLast < dlen)
    (hend : dlen ≤ 20 + chainSize rs) :
    ∃ m, decode (hdr ++ encodeRecords rs) = .ok m ∧
      (∀ r ∈ rs, m r.id = some (r.value : Int)) ∧
      (∀ k, (m k).isSome = true → ∃ r ∈ rs, r.id = k) := by
  have hdec := decode_encodeRecords hdr dlen hh rs (fun r hr => (hwf r hr).1) [] hend
  rw [List.append_nil, recordsBelow_eq_self dlen rs 20 hreach] at hdec
  refine ⟨_, hdec, ?_, ?_⟩
  · intro r hr
    rw [storeRecords_of_mem rs _ hnd r hr, toInt64_of_lt r.value (hwf r hr).2]
  · intro k hk
    by_contra hcon
    rw [storeRecords_of_not_mem k rs _ (fun r hr hid => hcon ⟨r, hr, hid⟩)] at hk
    cases hk

/-- C1 amended, at the two power records after a header with payload length
field 36. -/
theorem C1_round_trip_witness :
    ∃ m, decode (header 36 ++ encodeRecords [⟨1, 4, 0, 36000000⟩, ⟨2, 4, 0, 3600000⟩]) = .ok m ∧
      (∀ r ∈ [(⟨1, 4, 0, 36000000⟩ : Record), ⟨2, 4, 0, 3600000⟩],
        m r.id = some (r.value : Int)) ∧
      (∀ k, (m k).isSome = true →
        ∃ r ∈ [(⟨1, 4, 0, 36000000⟩ : Record), ⟨2, 4, 0, 3600000⟩], r.id = k) :=
  C1_round_trip (header 36) 36 (header_valid 36 (by decide))
    [⟨1, 4, 0, 36000000⟩, ⟨2, 4, 0, 3600000⟩] (by decide) (by decide) (by decide) (by decide)

/-! ## The publisher -/

theorem natCast_mul_zpow_floor (s : Nat) (e : Int) :
    ⌊(s : ℚ) * (2 : ℚ) ^ e⌋ = ((s * 2 ^ e.toNat / 2 ^ (-e).toNat : Nat) : Int) := by
  rcases Int.le_total 0 e with he | he
  · obtain ⟨k, rfl⟩ := Int.eq_ofNat_of_zero_le he
    have h0 : (-(k : Int)).toNat = 0 := by omega
    rw [h0, Int.toNat_ofNat, pow_zero, Nat.div_one, zpow_natCast]
    have : (s : ℚ) * (2 : ℚ) ^ k = ((s * 2 ^ k : Nat) : ℚ) := by push_cast; ring
    rw [this, Int.floor_natCast]
  · obtain ⟨k, hk⟩ := Int.eq_ofNat_of_zero_le (Int.neg_nonneg.mpr he)
    have he2 : e = -(k : Int) := by omega
    subst he2
    have h0 : (-(k : Int)).toNat = 0 := by omega
    rw [h0, neg_neg, Int.toNat_ofNat, pow_zero, Nat.mul_one, zpow_neg, zpow_natCast]
    have : (s : ℚ) * ((2 : ℚ) ^ k)⁻¹ = (s : ℚ) / ((2 ^ k : Nat) : ℚ) := by
      push_cast; rw [div_eq_mul_inv]
    rw [this, Rat.floor_natCast_div_natCast]
    rfl

/-- The conversion `int(f)` of a finite `float64` is the truncation toward
zero of the number it stands for, when the truncation fits an `int`. -/
theorem toInt_eq_truncate (f : float64) (q : ℚ) (hq : f.toRat = some q)
    (hlo : -2 ^ 63 ≤ truncate q) (hhi : truncate q < 2 ^ 63) : f.toInt = truncate q := by
  cases f with
  | inf _ => cases hq
  | nan => cases hq
  | finite neg sig exp =>
    simp only [float64.toRat, Option.some.injEq] at hq
    have hnn : (0 : ℚ) ≤ (sig : ℚ) * (2 : ℚ) ^ exp := by positivity
    have htr : truncate q =
        if neg then -((sig * 2 ^ exp.toNat / 2 ^ (-exp).toNat : Nat) : Int)
        else ((sig * 2 ^ exp.toNat / 2 ^ (-exp).toNat : Nat) : Int) := by
      rw [← natCast_mul_zpow_floor, ← hq]
      unfold truncate
      cases neg with
      | false => simp [hnn]
      | true =>
        simp only [if_true, neg_mul, one_mul]
        by_cases h0 : (0 : ℚ) ≤ -((sig : ℚ) * (2 : ℚ) ^ exp)
        · have hz : (sig : ℚ) * (2 : ℚ) ^ exp = 0 := le_antisymm (by linarith) hnn
          simp [hz]
        · rw [if_neg h0, Int.ceil_neg]
    rw [htr] at hlo hhi
    unfold float64.toInt
    simp only
    rw [if_pos ⟨hlo, hhi⟩, htr]

theorem toInt_volts229_9 : volts229_9.toInt = 229 := by decide

/-- C11, refuted. With the bus not connected, `publishData` of 229.9 with the
unit `V` stores nothing: the store has no value at the path afterwards. -/
theorem C11_publishData_disconnected_stores_nothing :
    (publishData volts229_9 "/Ac/L1/Voltage" "V" disconnectedState).victronValues 0
        "/Ac/L1/Voltage" = none ∧
      (publishData volts229_9 "/Ac/L1/Voltage" "V" disconnectedState).victronValues 0
        "/Ac/L1/Voltage" ≠ some (.float volts229_9) := by
  decide

/-- C11, amended. When the bus is connected, `publishData(v, p, u)` stores at
`p` the value `v` and the text made of the decimal rendering of `int(v)`
followed at once by `u`, and emits exactly one signal, which carries that
value and that text. `int(v)` is `v` truncated toward zero whenever `v` is
finite and the truncation fits an `int`; for 229.9 and the unit `V` the text
is `229V`. -/
theorem C11_publishData_connected (v : float64) (p u : String) (st : State)
    (hbus : st.dbusConnected = true) :
    (publishData v p u st).victronValues 0 p = some (.float v) ∧
      (publishData v p u st).victronValues 1 p = some (.str (toString v.toInt ++ u)) ∧
      (publishData v p u st).emitted = st.emitted ++
        [{ path := p, name := "com.victronenergy.BusItem.PropertiesChanged",
           Text := .str (toString v.toInt ++ u), Value := .float v }] ∧
      (∀ q : ℚ, v.toRat = some q → -2 ^ 63 ≤ truncate q → truncate q < 2 ^ 63 →
        v.toInt = truncate q) ∧
      (publishData volts229_9 p "V" st).victronValues 1 p = some (.str "229V") := by
  refine ⟨?_, ?_, ?_, fun q hq hlo hhi => toInt_eq_truncate v q hq hlo hhi, ?_⟩
  · rw [publishData_victronValues]; simp [hbus]
  · rw [publishData_victronValues]; simp [hbus]
  · rw [publishData_emitted, if_pos hbus]; rfl
  · rw [publishData_victronValues, toInt_volts229_9]; simp [hbus]; decide

/-- C11 amended, at 229.9 V published in `emptyState`. -/
theorem C11_publishData_connected_witness :
    (publishData volts229_9 "/Ac/L1/Voltage" "V" emptyState).victronValues 0 "/Ac/L1/Voltage" =
        some (.float volts229_9) ∧
      (publishData volts229_9 "/Ac/L1/Voltage" "V" emptyState).victronValues 1 "/Ac/L1/Voltage" =
        some (.str (toString volts229_9.toInt ++ "V")) ∧
      (publishData volts229_9 "/Ac/L1/Voltage" "V" emptyState).emitted = emptyState.emitted ++
        [{ path := "/Ac/L1/Voltage", name := "com.victronenergy.BusItem.PropertiesChanged",
           Text := .str (toString volts229_9.toInt ++ "V"), Value := .float volts229_9 }] ∧
      (∀ q : ℚ, volts229_9.toRat = some q → -2 ^ 63 ≤ truncate q → truncate q < 2 ^ 63 →
        volts229_9.toInt = truncate q) ∧
      (publishData volts229_9 "/Ac/L1/Voltage" "V" emptyState).victronValues 1
        "/Ac/L1/Voltage" = some (.str "229V") :=
  C11_publishData_connected volts229_9 "/Ac/L1/Voltage" "V" emptyState rfl

/-- C12, refuted. With the bus not connected, `publishDataString(1, "1",
"/Connected")` does not update the store: it has no value and no text at
`/Connected` afterwards. -/
theorem C12_disconnected_publish_not_stored :
    (publishDataString (float64.ofInt 1) "1" "/Connected" disconnectedState).victronValues 0
        "/Connected" ≠ some (.float (float64.ofInt 1)) ∧
      (publishDataString (float64.ofInt 1) "1" "/Connected" disconnectedState).victronValues 1
        "/Connected" ≠ some (.str "1") := by
  decide

/-- C12, amended. A publish (`publishDataString` or `publishData`) performed
while `dbusConnected` is false changes nothing: the store is not updated and no
signal is emitted. -/
theorem C12_disconnected_publish_changes_nothing (value : float64) (text path unit : String)
    (st : State) (hbus : st.dbusConnected = false) :
    publishDataString value text path st = st ∧ publishData value path unit st = st := by
  unfold publishData publishDataString
  simp [hbus]

/-- C12 amended, at a publish of the connectivity path in `disconnectedState`. -/
theorem C12_disconnected_publish_changes_nothing_witness :
    publishDataString (float64.ofInt 1) "1" "/Connected" disconnectedState = disconnectedState ∧
      publishData (float64.ofInt 1) "/Connected" "" disconnectedState = disconnectedState :=
  C12_disconnected_publish_changes_nothing (float64.ofInt 1) "1" "/Connected" ""
    disconnectedState rfl

/-- C17. With the bus connected, `publishDataString(value, text, path)`
performed twice in a row leaves the store in the state reached after
performing it once, and emits two signals where one call emits one. -/
theorem C17_publish_idempotent (st : State) (value : float64) (text path : String)
    (hbus : st.dbusConnected = true) :
    (publishDataString value text path (publishDataString value text path st)).victronValues =
        (publishDataString value text path st).victronValues ∧
      (publishDataString value text path st).emitted = st.emitted ++
        [{ path := path, name := "com.victronenergy.BusItem.PropertiesChanged",
           Text := .str text, Value := .float value }] ∧
      (publishDataString value text path (publishDataString value text path st)).emitted =
        st.emitted ++
        [{ path := path, name := "com.victronenergy.BusItem.PropertiesChanged",
           Text := .str text, Value := .float value },
         { path := path, name := "com.victronenergy.BusItem.PropertiesChanged",
           Text := .str text, Value := .float value }] := by
  refine ⟨?_, ?_, ?_⟩
  · funext k p
    simp only [publishDataString, hbus, if_true, setVictronValue]
    by_cases h1 : k = 1 ∧ p = path
    · simp [h1]
    · by_cases h0 : k = 0 ∧ p = path <;> simp [h1, h0]
  · simp [publishDataString, hbus]
  · simp [publishDataString, hbus]

/-- C17, at two publishes of the connectivity path in `emptyState`. -/
theorem C17_publish_idempotent_witness :
    (publishDataString (float64.ofInt 1) "1" "/Connected"
        (publishDataString (float64.ofInt 1) "1" "/Connected" emptyState)).victronValues =
        (publishDataString (float64.ofInt 1) "1" "/Connected" emptyState).victronValues ∧
      (publishDataString (float64.ofInt 1) "1" "/Connected" emptyState).emitted =
        emptyState.emitted ++
        [{ path := "/Connected", name := "com.victronenergy.BusItem.PropertiesChanged",
           Text := .str "1", Value := .float (float64.ofInt 1) }] ∧
      (publishDataString (float64.ofInt 1) "1" "/Connected"
        (publishDataString (float64.ofInt 1) "1" "/Connected" emptyState)).emitted =
        emptyState.emitted ++
        [{ path := "/Connected", name := "com.victronenergy.BusItem.PropertiesChanged",
           Text := .str "1", Value := .float (float64.ofInt 1) },
         { path := "/Connected", name := "com.victronenergy.BusItem.PropertiesChanged",
           Text := .str "1", Value := .float (float64.ofInt 1) }] :=
  C17_publish_idempotent emptyState (float64.ofInt 1) "1" "/Connected" rfl

/-! ## The liveness flag -/

theorem resolveEntry_receivedData_irrelevant (m : RawMap) (st : State) (x : Bool)
    (e : Nat × LookupEntry) :
    resolveEntry m { st with receivedData := x } e =
      { resolveEntry m st e with receivedData := x } := by
  rw [resolveEntry_eq, resolveEntry_eq]
  cases entryValue m e with
  | none => rfl
  | some v =>
    simp only [publishData, publishDataString]
    by_cases hb : st.dbusConnected = true <;> simp [hb]

theorem resolveAll_receivedData_irrelevant (m : RawMap) (x : Bool)
    (order : List (Nat × LookupEntry)) :
    ∀ st : State, resolveAll order m { st with receivedData := x } =
      { resolveAll order m st with receivedData := x } := by
  induction order with
  | nil => intro st; rfl
  | cons e es ih =>
    intro st
    simp only [resolveAll, List.foldl_cons] at ih ⊢
    rw [resolveEntry_receivedData_irrelevant, ih]

/-- C19. For a packet that decodes (header tag, data tag and protocol id
pass and the body loop runs to its end), `receivedData` is true after
`msgHandler`, whatever it was before, whatever the visiting order of the table
and whatever was published. `msgHandler` does not read the flag: the exit, the
store, the signals and `dbusConnected` after the call are the same for either
value of the flag before the call, for every buffer. -/
theorem C19_receivedData_set (order : List (Nat × LookupEntry)) (st : State) (b : List byte) :
    (∀ m, decode b = .ok m →
        (msgHandler order st b).exit = .returned ∧
          (msgHandler order st b).state.receivedData = true) ∧
      (∀ x : Bool,
        (msgHandler order { st with receivedData := x } b).exit = (msgHandler order st b).exit ∧
        (msgHandler order { st with receivedData := x } b).state.victronValues =
          (msgHandler order st b).state.victronValues ∧
        (msgHandler order { st with receivedData := x } b).state.emitted =
          (msgHandler order st b).state.emitted ∧
        (msgHandler order { st with receivedData := x } b).state.dbusConnected =
          (msgHandler order st b).state.dbusConnected) := by
  constructor
  · intro m hdec
    rw [msgHandler_of_decode_ok order st b m hdec]
    exact ⟨rfl, rfl⟩
  · intro x
    unfold msgHandler
    cases decode b with
    | ok m => simp [resolveAll_receivedData_irrelevant]
    | invalidHeader => exact ⟨rfl, rfl, rfl, rfl⟩
    | fatal => exact ⟨rfl, rfl, rfl, rfl⟩
    | panic => exact ⟨rfl, rfl, rfl, rfl⟩
    | outOfFuel => exact ⟨rfl, rfl, rfl, rfl⟩

/-- C19, at the datagram with the voltage of phase 1, handled in a state whose
flag is false. -/
theorem C19_receivedData_set_witness :
    emptyState.receivedData = false ∧
      (msgHandler actualLookup emptyState voltagePacket).exit = .returned ∧
      (msgHandler actualLookup emptyState voltagePacket).state.receivedData = true :=
  ⟨rfl, (C19_receivedData_set actualLookup emptyState voltagePacket).1 _ decode_voltagePacket⟩

/-! ## Order of the loop over the lookup table -/

theorem resolveEntry_victronValues_of_ne (m : RawMap) (st : State) (x : Nat × LookupEntry)
    (k : Int) (p : String) (h : x.2.Path ≠ p) :
    (resolveEntry m st x).victronValues k p = st.victronValues k p := by
  have := resolveAll_victronValues_frame m p k [x] st
    (fun y hy hp => absurd (by rw [List.mem_singleton.mp hy] at hp; exact hp) h)
  simpa [resolveAll] using this

/-- With pairwise distinct paths in the visiting order, the store at the path
of an entry that resolves to a value is, after the loop, what one
`publishData` of that value leaves there. -/
theorem resolveAll_victronValues_of_value (m : RawMap) (e : Nat × LookupEntry) (v : float64)
    (hv : entryValue m e = some v) (k : Int) (order : List (Nat × LookupEntry)) :
    ∀ st : State, (order.map fun x => x.2.Path).Nodup → e ∈ order →
      (resolveAll order m st).victronValues k e.2.Path =
        (publishData v e.2.Path e.2.Unit st).victronValues k e.2.Path := by
  induction order with
  | nil => intro st _ he; cases he
  | cons x xs ih =>
    intro st hnd he
    rw [List.map_cons, List.nodup_cons] at hnd
    rcases List.mem_cons.mp he with hex | hex
    · subst hex
      have hfr : ∀ y ∈ xs, y.2.Path = e.2.Path → entryValue m y = none := by
        intro y hy hp
        exact absurd (hp ▸ List.mem_map_of_mem (fun x => x.2.Path) hy) hnd.1
      have h0 := resolveAll_victronValues_frame m e.2.Path k xs (resolveEntry m st e) hfr
      simp only [resolveAll, List.foldl_cons] at h0 ⊢
      rw [h0, resolveEntry_eq, hv]
    · have hne : x.2.Path ≠ e.2.Path := fun hp =>
        hnd.1 (hp ▸ List.mem_map_of_mem (fun x => x.2.Path) hex)
      have := ih (resolveEntry m st x) hnd.2 hex
      simp only [resolveAll, List.foldl_cons] at this ⊢
      rw [this, publishData_victronValues, publishData_victronValues,
        resolveEntry_dbusConnected, resolveEntry_victronValues_of_ne m st x k e.2.Path hne]

theorem resolveAll_victronValues_perm (m : RawMap) (st : State)
    (order1 order2 : List (Nat × LookupEntry)) (h1 : order1.Perm actualLookup)
    (h2 : order2.Perm actualLookup) :
    (resolveAll order1 m st).victronValues = (resolveAll order2 m st).victronValues := by
  funext k p
  by_cases h : ∃ x ∈ actualLookup, x.2.Path = p ∧ ∃ v, entryValue m x = some v
  · obtain ⟨x, hx, hp, v, hv⟩ := h
    subst hp
    rw [resolveAll_victronValues_of_value m x v hv k order1 st (order_paths_nodup order1 h1)
        (h1.mem_iff.mpr hx),
      resolveAll_victronValues_of_value m x v hv k order2 st (order_paths_nodup order2 h2)
        (h2.mem_iff.mpr hx)]
  · have hnone : ∀ x ∈ actualLookup, x.2.Path = p → entryValue m x = none := by
      intro x hx hp
      cases hv : entryValue m x with
      | none => rfl
      | some v => exact absurd ⟨x, hx, hp, v, hv⟩ h
    rw [resolveAll_victronValues_frame m p k order1 st
        (fun x hx => hnone x (h1.mem_iff.mp hx)),
      resolveAll_victronValues_frame m p k order2 st
        (fun x hx => hnone x (h2.mem_iff.mp hx))]

/-- C16. The paths of the entries of `actualLookup` are pairwise distinct, and
for every raw value mapping and every state the store after the loop over the
table is the same for any two visiting orders of the table; so is the store
after `msgHandler`, for every buffer. -/
theorem C16_order_independent (order1 order2 : List (Nat × LookupEntry))
    (h1 : order1.Perm actualLookup) (h2 : order2.Perm actualLookup) (st : State) :
    (actualLookup.map fun x => x.2.Path).Nodup ∧
      (∀ m : RawMap,
        (resolveAll order1 m st).victronValues = (resolveAll order2 m st).victronValues) ∧
      (∀ b : List byte,
        (msgHandler order1 st b).state.victronValues =
          (msgHandler order2 st b).state.victronValues) := by
  refine ⟨actualLookup_paths_nodup, fun m => resolveAll_victronValues_perm m st _ _ h1 h2, ?_⟩
  intro b
  cases hdec : decode b with
  | ok m =>
    rw [msgHandler_state_victronValues order1 st b m hdec,
      msgHandler_state_victronValues order2 st b m hdec]
    exact resolveAll_victronValues_perm m st _ _ h1 h2
  | invalidHeader => simp [msgHandler, hdec]
  | fatal => simp [msgHandler, hdec]
  | panic => simp [msgHandler, hdec]
  | outOfFuel => simp [msgHandler, hdec]

/-- C16, at the source order of the table and its reverse. -/
theorem C16_order_independent_witness :
    (actualLookup.map fun x => x.2.Path).Nodup ∧
      (∀ m : RawMap,
        (resolveAll actualLookup m emptyState).victronValues =
          (resolveAll actualLookup.reverse m emptyState).victronValues) ∧
      (∀ b : List byte,
        (msgHandler actualLookup emptyState b).state.victronValues =
          (msgHandler actualLookup.reverse emptyState b).state.victronValues) :=
  C16_order_independent actualLookup actualLookup.reverse (List.Perm.refl _)
    (List.reverse_perm _) emptyState

/-! ## Records with the same identifier -/

theorem storeRecords_append (m : RawMap) (xs ys : List Record) :
    storeRecords m (xs ++ ys) = storeRecords (storeRecords m xs) ys := by
  simp [storeRecords, List.foldl_append]

/-- Storing a chain of records leaves, for the identifier of a record that no
later record of the chain carries, the value of that record. -/
theorem storeRecords_last (m : RawMap) (pre : List Record) (r : Record) (post : List Record)
    (hlast : ∀ x ∈ post, x.id ≠ r.id) :
    storeRecords m (pre ++ r :: post) r.id = some (toInt64 r.value) := by
  rw [storeRecords_append]
  have h := storeRecords_of_not_mem r.id post
    ((storeRecords m pre).set r.id (toInt64 r.value)) hlast
  simp only [storeRecords, List.foldl_cons] at h ⊢
  rw [h]
  simp [RawMap.set]

/-- C18. For a datagram made of a valid header, an encoded chain of
well-formed records and any trailing bytes (payload length field not past the
end of the chain), and for a record `r` among the records the loop reads such
that no record read after it carries its identifier: the raw value mapping
holds for that identifier the value of `r`, whatever records with the same
identifier came before, and, with the bus connected, the lookup entry with
that identifier is published with the value computed from the value of `r`. -/
theorem C18_last_write_wins (hdr : List byte) (dlen : Nat) (hh : ValidHeader hdr dlen)
    (rs : List Record) (hwf : ∀ r ∈ rs, r.WellFormed) (trailing : List byte)
    (hd : dlen ≤ 20 + chainSize rs) (pre : List Record) (r : Record) (post : List Record)
    (hsplit : recordsBelow dlen 20 rs = pre ++ r :: post)
    (hlast : ∀ x ∈ post, x.id ≠ r.id) :
    ∃ m, decode (hdr ++ (encodeRecords rs ++ trailing)) = .ok m ∧
      m r.id = some (toInt64 r.value) ∧
      (∀ (order : List (Nat × LookupEntry)) (st : State), order.Perm actualLookup →
        st.dbusConnected = true → ∀ x ∈ actualLookup, x.1 = r.id →
        (x.2.Calculated = false →
          Published (msgHandler order st (hdr ++ (encodeRecords rs ++ trailing))).state x.2
            ((float64.ofInt (toInt64 r.value)).div x.2.Divider)) ∧
        (x.2.Calculated = true → ∀ r2 : Int, m (x.1 + (1 <<< 8)) = some r2 →
          Published (msgHandler order st (hdr ++ (encodeRecords rs ++ trailing))).state x.2
            (((float64.ofInt (toInt64 r.value)).div x.2.Divider).sub
              ((float64.ofInt r2).div x.2.Divider)))) := by
  have hdec := decode_encodeRecords hdr dlen hh rs hwf trailing hd
  rw [hsplit] at hdec
  have hm := storeRecords_last (fun _ => none) pre r post hlast
  refine ⟨_, hdec, hm, ?_⟩
  intro order st horder hbus x hx hid
  rw [← hid] at hm
  exact ⟨fun hc => msgHandler_published order horder st hbus _ _ hdec x hx _
      (entryValue_direct _ x _ hm hc),
    fun hc r2 hr2 => msgHandler_published order horder st hbus _ _ hdec x hx _
      (entryValue_derived _ x _ r2 hm hr2 hc)⟩

/-- C18, at the datagram with two voltage records of phase 1: the second
value, 230500, is the one kept. -/
theorem C18_last_write_wins_witness :
    ∃ m, decode (header 36 ++ (encodeRecords repeatedIdRecords ++ [])) = .ok m ∧
      m (Record.id ⟨32, 4, 0, 230500⟩) = some (toInt64 230500) ∧
      (∀ (order : List (Nat × LookupEntry)) (st : State), order.Perm actualLookup →
        st.dbusConnected = true → ∀ x ∈ actualLookup, x.1 = Record.id ⟨32, 4, 0, 230500⟩ →
        (x.2.Calculated = false →
          Published (msgHandler order st
              (header 36 ++ (encodeRecords repeatedIdRecords ++ []))).state x.2
            ((float64.ofInt (toInt64 230500)).div x.2.Divider)) ∧
        (x.2.Calculated = true → ∀ r2 : Int, m (x.1 + (1 <<< 8)) = some r2 →
          Published (msgHandler order st
              (header 36 ++ (encodeRecords repeatedIdRecords ++ []))).state x.2
            (((float64.ofInt (toInt64 230500)).div x.2.Divider).sub
              ((float64.ofInt r2).div x.2.Divider)))) :=
  C18_last_write_wins (header 36) 36 (header_valid 36 (by decide)) repeatedIdRecords
    (by decide) [] (by decide) [⟨32, 4, 0, 229900⟩] ⟨32, 4, 0, 230500⟩ [] (by decide)
    (by decide)

/-! ## Termination of the body loop -/

/-- A pass of the loop body that does not panic advances the position by 12
when the type byte of the record, at offset 2 from the position, is 8, and by
8 otherwise. -/
theorem loopBody_advance (b : List byte) (pos id : Nat) (v : Int) (pos1 : Nat)
    (h : loopBody b pos = some (id, v, pos1)) :
    ∃ t, index b (pos + 2) = some t ∧ pos1 = pos + (if t = 8 then 12 else 8) := by
  unfold loopBody at h
  simp only [sliceFrom] at h
  by_cases hp : pos ≤ b.length
  · simp only [hp, if_true] at h
    split at h
    · exact absurd h (by simp)
    · rename_i t ht
      refine ⟨t, ?_, ?_⟩
      · simpa [index, List.getElem?_drop] using ht
      · split at h
        · split at h
          · exact absurd h (by simp)
          · split at h
            · rename_i hc
              simp only [Option.some.injEq, Prod.mk.injEq] at h
              have hc8 : t = 8 := hc
              rw [if_pos hc8]
              omega
            · rename_i hc
              simp only [Option.some.injEq, Prod.mk.injEq] at h
              have hc8 : ¬ t = 8 := hc
              rw [if_neg hc8]
              omega
        · exact absurd h (by simp)
  · simp [hp] at h

/-- The body loop does not run out of fuel when the fuel covers one test of
the loop condition per 8 bytes between the position and `dlen`, and one
more. -/
theorem bodyLoop_enough_fuel (b : List byte) (dlen : Nat) :
    ∀ (fuel pos : Nat) (m : RawMap), 0 < fuel → dlen + 8 ≤ pos + 8 * fuel →
      bodyLoop b dlen fuel pos m ≠ .outOfFuel := by
  intro fuel
  induction fuel with
  | zero => intro pos m h; omega
  | succ fuel ih =>
    intro pos m _ hf
    unfold bodyLoop
    split
    · split
      · simp
      · rename_i id v pos1 hb
        have := (loopBody_some_bounds b pos id v pos1 hb).1
        exact ih pos1 _ (by omega) (by omega)
    · simp

/-- More fuel does not change the result of a body loop that did not run out
of fuel. -/
theorem bodyLoop_more_fuel (b : List byte) (dlen : Nat) :
    ∀ (fuel pos : Nat) (m : RawMap) (extra : Nat), bodyLoop b dlen fuel pos m ≠ .outOfFuel →
      bodyLoop b dlen (fuel + extra) pos m = bodyLoop b dlen fuel pos m := by
  intro fuel
  induction fuel with
  | zero => intro pos m extra h; exact absurd rfl h
  | succ fuel ih =>
    intro pos m extra h
    rw [show fuel + 1 + extra = (fuel + extra) + 1 by omega]
    unfold bodyLoop at h ⊢
    split
    · rename_i hlt
      rw [if_pos hlt] at h
      split
      · rfl
      · rename_i id v pos1 hb
        rw [hb] at h
        exact ih pos1 _ extra h
    · rfl

theorem field16_lt (b : List byte) (off : Nat) : field16 b off < 2 ^ 16 := by
  unfold field16
  have h1 := (b.getD off 0).isLt
  have h2 := (b.getD (off + 1) 0).isLt
  omega

/-- C20. For every buffer and every payload length `dlen` that fits 16 bits,
the body loop started at position 20 ends, normally or in a panic, within 8191
tests of its condition, that is after at most 8190 = ceil((65535 - 20) / 8)
passes through its body (the payload length field, two bytes, fits 16 bits); more tests, or the `dlen + 1` tests `decode` allows,
give the same result. Each pass that does not panic advances the position by
exactly 12 when the type byte of the record is 8 and by exactly 8 otherwise,
so the position strictly increases. -/
theorem C20_body_loop_terminates (b : List byte) (dlen : Nat) (hd : dlen < 2 ^ 16)
    (m : RawMap) :
    bodyLoop b dlen 8191 20 m ≠ .outOfFuel ∧
      (∀ extra, bodyLoop b dlen (8191 + extra) 20 m = bodyLoop b dlen 8191 20 m) ∧
      bodyLoop b dlen (dlen + 1) 20 m = bodyLoop b dlen 8191 20 m ∧
      (∀ (pos id : Nat) (v : Int) (pos1 : Nat), loopBody b pos = some (id, v, pos1) →
        pos < pos1 ∧ ∃ t, index b (pos + 2) = some t ∧
          pos1 = pos + (if t = 8 then 12 else 8)) ∧
      (65535 - 20 + 7) / 8 = 8190 ∧ field16 b 12 < 2 ^ 16 := by
  have h1 : bodyLoop b dlen 8191 20 m ≠ .outOfFuel :=
    bodyLoop_enough_fuel b dlen 8191 20 m (by omega) (by omega)
  have h2 : bodyLoop b dlen (dlen + 1) 20 m ≠ .outOfFuel :=
    bodyLoop_ne_outOfFuel b dlen (dlen + 1) 20 m (by omega) (by omega)
  refine ⟨h1, fun extra => bodyLoop_more_fuel b dlen 8191 20 m extra h1, ?_, ?_, by decide,
    field16_lt b 12⟩
  · rcases Nat.le_total (dlen + 1) 8191 with hle | hle
    · obtain ⟨k, hk⟩ := Nat.exists_eq_add_of_le hle
      rw [hk, bodyLoop_more_fuel b dlen (dlen + 1) 20 m k h2]
    · obtain ⟨k, hk⟩ := Nat.exists_eq_add_of_le hle
      rw [hk, bodyLoop_more_fuel b dlen 8191 20 m k h1]
  · intro pos id v pos1 h
    obtain ⟨t, ht, hp⟩ := loopBody_advance b pos id v pos1 h
    refine ⟨?_, t, ht, hp⟩
    have := (loopBody_some_bounds b pos id v pos1 h).1
    omega

/-- C20, at the datagram with the power-measure pair and its payload length
field 36. -/
theorem C20_body_loop_terminates_witness :
    bodyLoop powerPacket 36 8191 20 (fun _ => none) ≠ .outOfFuel ∧
      (∀ extra, bodyLoop powerPacket 36 (8191 + extra) 20 (fun _ => none) =
        bodyLoop powerPacket 36 8191 20 (fun _ => none)) ∧
      bodyLoop powerPacket 36 (36 + 1) 20 (fun _ => none) =
        bodyLoop powerPacket 36 8191 20 (fun _ => none) ∧
      (∀ (pos id : Nat) (v : Int) (pos1 : Nat),
        loopBody powerPacket pos = some (id, v, pos1) →
        pos < pos1 ∧ ∃ t, index powerPacket (pos + 2) = some t ∧
          pos1 = pos + (if t = 8 then 12 else 8)) ∧
      (65535 - 20 + 7) / 8 = 8190 ∧ field16 powerPacket 12 < 2 ^ 16 :=
  C20_body_loop_terminates powerPacket 36 (by decide) (fun _ => none)

/-! ## The liveness monitor -/

theorem aliveCheckCall_eq (previousState captured : Bool) :
    aliveCheckCall previousState captured =
      if captured ≠ previousState then some (connectivityCall captured) else none := by
  cases previousState <;> cases captured <;> rfl

theorem publishDataString_receivedData (value : float64) (text path : String) (st : State) :
    (publishDataString value text path st).receivedData = st.receivedData := by
  unfold publishDataString
  by_cases hb : st.dbusConnected = true <;> simp [hb]

theorem aliveCheckIteration_fst (previousState captured : Bool) (st : State) :
    (aliveCheckIteration previousState captured st).1 = captured := by
  unfold aliveCheckIteration
  simp only [Bool.false_or]
  cases aliveCheckCall previousState captured with
  | none => rfl
  | some c => simp [PublishCall.run, publishDataString_receivedData]

theorem aliveCheckIteration_call (previousState captured : Bool) (st : State) :
    (aliveCheckIteration previousState captured st).2.2 =
      aliveCheckCall previousState captured := by
  simp [aliveCheckIteration]

/-- The calls of a run of the monitor, without the state. -/
theorem connectionAliveCheck_calls :
    ∀ (ticks : List Bool) (previousState : Bool) (st : State),
      (connectionAliveCheck ticks previousState st).1 =
        (List.zip (previousState :: ticks) ticks).map fun x => aliveCheckCall x.1 x.2 := by
  intro ticks
  induction ticks with
  | nil => intro _ _; rfl
  | cons c cs ih =>
    intro prev st
    simp only [connectionAliveCheck, List.zip_cons_cons, List.map_cons]
    rw [ih, aliveCheckIteration_fst, aliveCheckIteration_call]

theorem connectionAliveCheck_monitorCalls :
    ∀ (ticks : List Bool) (previousState : Bool) (st : State),
      (connectionAliveCheck ticks previousState st).1 = monitorCalls previousState ticks := by
  intro ticks
  induction ticks with
  | nil => intro _ _; rfl
  | cons c cs ih =>
    intro prev st
    simp only [connectionAliveCheck, monitorCalls]
    rw [ih, aliveCheckIteration_fst, aliveCheckIteration_call]

theorem connectivityCall_ne (x y : Bool) (h : x ≠ y) : connectivityCall x ≠ connectivityCall y := by
  cases x <;> cases y <;> first | exact absurd rfl h | decide

theorem monitorCalls_chain :
    ∀ (ticks : List Bool) (previousState : Bool),
      List.Chain (fun a b => a ≠ b) (connectivityCall previousState)
        ((monitorCalls previousState ticks).filterMap id) := by
  intro ticks
  induction ticks with
  | nil => intro _; exact List.Chain.nil
  | cons c cs ih =>
    intro prev
    simp only [monitorCalls, aliveCheckCall_eq]
    by_cases h : c ≠ prev
    · rw [if_pos h, List.filterMap_cons_some (by rfl)]
      exact List.Chain.cons (connectivityCall_ne prev c (Ne.symm h)) (ih c)
    · rw [if_neg h, List.filterMap_cons_none (by rfl)]
      have hc : c = prev := not_not.mp h
      rw [← hc]
      exact ih c

theorem monitorCalls_replicate_same (x : Bool) :
    ∀ n : Nat, monitorCalls x (List.replicate n x) = List.replicate n none := by
  intro n
  induction n with
  | zero => rfl
  | succ n ih => simp [List.replicate_succ, monitorCalls, aliveCheckCall_eq, ih]

theorem monitorCalls_replicate_append (x : Bool) (ys : List Bool) :
    ∀ n : Nat, monitorCalls x (List.replicate n x ++ ys) =
      List.replicate n none ++ monitorCalls x ys := by
  intro n
  induction n with
  | zero => simp
  | succ n ih => simp [List.replicate_succ, monitorCalls, aliveCheckCall_eq, ih]

theorem monitorCalls_edge (x : Bool) (ys : List Bool) (n : Nat) :
    monitorCalls (!x) (List.replicate (n + 1) x ++ ys) =
      some (connectivityCall x) :: (List.replicate n none ++ monitorCalls x ys) := by
  rw [List.replicate_succ, List.cons_append, monitorCalls, monitorCalls_replicate_append,
    aliveCheckCall_eq]
  cases x <;> rfl

theorem aliveCheckIteration_state (previousState captured : Bool) (st : State)
    (hbus : st.dbusConnected = true) :
    (aliveCheckIteration previousState captured st).2.1.dbusConnected = true ∧
      (aliveCheckIteration previousState captured st).2.1.emitted =
        st.emitted ++
          ((aliveCheckCall previousState captured).toList.map PublishCall.signal) := by
  unfold aliveCheckIteration
  simp only [Bool.false_or]
  cases aliveCheckCall previousState captured with
  | none => simp [hbus]
  | some c => simp [PublishCall.run, PublishCall.signal, publishDataString, hbus]

/-- With the bus connected, the signals a run of the monitor emits are those
of its calls, in order. -/
theorem connectionAliveCheck_emitted :
    ∀ (ticks : List Bool) (previousState : Bool) (st : State), st.dbusConnected = true →
      (connectionAliveCheck ticks previousState st).2.emitted =
        st.emitted ++
          ((monitorCalls previousState ticks).filterMap id).map PublishCall.signal := by
  intro ticks
  induction ticks with
  | nil => intro _ st _; simp [connectionAliveCheck, monitorCalls]
  | cons c cs ih =>
    intro prev st hbus
    obtain ⟨hb1, he1⟩ := aliveCheckIteration_state prev c st hbus
    simp only [connectionAliveCheck, monitorCalls]
    rw [ih _ _ hb1, he1, aliveCheckIteration_fst]
    cases aliveCheckCall prev c with
    | none => simp
    | some x => simp

/-- C13. One iteration of the loop of `connectionAliveCheck` makes a publish
call exactly when the flag captured after the sleep differs from
`previousState`, and the call is `publishDataString(1, "1", "/Connected")` when
the captured flag is true and `publishDataString(0, "0", "/Connected")` when it
is false. For every sequence of ticks, from the initial `previousState` true:
the call of a tick is decided by the flag captured at the tick and the one
captured at the tick before; two consecutive calls never carry the same state;
ticks that all captured a packet make no call; after such ticks the first
packet-free tick makes exactly one offline call, further packet-free ticks
none, and the next tick with a packet exactly one online call. With the bus
connected the signals emitted are those of the calls. -/
theorem C13_liveness_edge_triggered (ticks : List Bool) (st : State) :
    (∀ previousState captured : Bool,
        (aliveCheckCall previousState captured).isSome = true ↔ captured ≠ previousState) ∧
      (∀ (previousState captured : Bool) (c : PublishCall),
        aliveCheckCall previousState captured = some c →
        c = (if captured then ⟨float64.ofInt 1, "1", "/Connected"⟩
          else ⟨float64.ofInt 0, "0", "/Connected"⟩)) ∧
      (connectionAliveCheck ticks true st).1 =
        ((List.zip (true :: ticks) ticks).map fun x => aliveCheckCall x.1 x.2) ∧
      List.Chain' (fun a b => a ≠ b) ((connectionAliveCheck ticks true st).1.filterMap id) ∧
      (∀ n : Nat, (connectionAliveCheck (List.replicate n true) true st).1 =
        List.replicate n none) ∧
      (∀ n j k : Nat,
        (connectionAliveCheck
            (List.replicate n true ++ (List.replicate (j + 1) false ++
              List.replicate (k + 1) true)) true st).1 =
          List.replicate n none ++ (some (connectivityCall false) :: (List.replicate j none ++
            (some (connectivityCall true) :: List.replicate k none)))) ∧
      (st.dbusConnected = true →
        (connectionAliveCheck ticks true st).2.emitted =
          st.emitted ++
            ((connectionAliveCheck ticks true st).1.filterMap id).map PublishCall.signal) := by
  refine ⟨?_, ?_, connectionAliveCheck_calls ticks true st, ?_, ?_, ?_, ?_⟩
  · intro p c
    cases p <;> cases c <;> simp [aliveCheckCall]
  · intro p c x h
    cases p <;> cases c <;> simp [aliveCheckCall] at h <;> simp [← h]
  · rw [connectionAliveCheck_monitorCalls]
    have h : List.Chain' (fun a b => a ≠ b)
        (connectivityCall true :: (monitorCalls true ticks).filterMap id) :=
      monitorCalls_chain ticks true
    exact h.tail
  · intro n
    rw [connectionAliveCheck_monitorCalls, monitorCalls_replicate_same]
  · intro n j k
    rw [connectionAliveCheck_monitorCalls, monitorCalls_replicate_append]
    have h1 := monitorCalls_edge false (List.replicate (k + 1) true) j
    have h2 := monitorCalls_edge true [] k
    simp only [Bool.not_false, Bool.not_true, List.append_nil] at h1 h2
    rw [h1, h2]
    simp [monitorCalls]
  · intro hbus
    rw [connectionAliveCheck_emitted ticks true st hbus, connectionAliveCheck_monitorCalls]

/-- C13, at four ticks (packet, none, none, packet) from `emptyState`: one
offline call at the second tick, one online call at the fourth, and their two
signals. -/
theorem C13_liveness_edge_triggered_witness :
    (connectionAliveCheck [true, false, false, true] true emptyState).1 =
        [none, some (connectivityCall false), none, some (connectivityCall true)] ∧
      (connectionAliveCheck [true, false, false, true] true emptyState).2.emitted =
        emptyState.emitted ++
          ((connectionAliveCheck [true, false, false, true] true emptyState).1.filterMap
            id).map PublishCall.signal :=
  ⟨(C13_liveness_edge_triggered [true, false, false, true] emptyState).2.2.1.trans (by decide),
    (C13_liveness_edge_triggered [true, false, false, true] emptyState).2.2.2.2.2.2 rfl⟩

/-! ## Completeness of the store -/

theorem setBoth_apply (m : Int → objectpath → Option Variant) (path : objectpath)
    (v0 v1 : Variant) (k : Int) (p : objectpath) :
    setBoth m path v0 v1 k p =
      if p = path ∧ k = 1 then some v1 else if p = path ∧ k = 0 then some v0 else m k p := by
  unfold setBoth setVictronValue
  by_cases hp : p = path
  · by_cases h1 : k = 1
    · simp [hp, h1]
    · by_cases h0 : k = 0 <;> simp [hp, h1, h0]
  · simp [hp]

theorem foldl_setBoth_isSome {α : Type} (f : α → String × Variant × Variant) (k : Int)
    (p : objectpath) :
    ∀ (xs : List α) (m : Int → objectpath → Option Variant), (m k p).isSome = true →
      ((xs.foldl (fun m x => setBoth m (f x).1 (f x).2.1 (f x).2.2) m) k p).isSome = true := by
  intro xs
  induction xs with
  | nil => intro m h; exact h
  | cons x xs ih =>
    intro m h
    simp only [List.foldl_cons]
    apply ih
    rw [setBoth_apply]
    split
    · rfl
    · split
      · rfl
      · exact h

theorem foldl_setBoth_mem {α : Type} (f : α → String × Variant × Variant) :
    ∀ (xs : List α) (m : Int → objectpath → Option Variant) (x : α), x ∈ xs →
      ((xs.foldl (fun m x => setBoth m (f x).1 (f x).2.1 (f x).2.2) m) 0 (f x).1).isSome = true ∧
      ((xs.foldl (fun m x => setBoth m (f x).1 (f x).2.1 (f x).2.2) m) 1 (f x).1).isSome
        = true := by
  intro xs
  induction xs with
  | nil => intro m x hx; cases hx
  | cons y ys ih =>
    intro m x hx
    simp only [List.foldl_cons]
    rcases List.mem_cons.mp hx with hxy | hxy
    · subst hxy
      exact ⟨foldl_setBoth_isSome f 0 _ ys _ (by simp [setBoth_apply]),
        foldl_setBoth_isSome f 1 _ ys _ (by simp [setBoth_apply])⟩
    · exact ih _ x hxy

theorem foldl_setBoth_of_not_mem {α : Type} (f : α → String × Variant × Variant) (k : Int)
    (p : objectpath) :
    ∀ (xs : List α) (m : Int → objectpath → Option Variant), (∀ x ∈ xs, (f x).1 ≠ p) →
      (xs.foldl (fun m x => setBoth m (f x).1 (f x).2.1 (f x).2.2) m) k p = m k p := by
  intro xs
  induction xs with
  | nil => intro m _; rfl
  | cons x xs ih =>
    intro m h
    simp only [List.foldl_cons]
    rw [ih _ (fun y hy => h y (List.mem_cons_of_mem _ hy)), setBoth_apply]
    have hne : ¬ p = (f x).1 := fun hp => h x (List.mem_cons_self _ _) hp.symm
    simp [hne]

theorem foldl_setBoth_value {α : Type} (f : α → String × Variant × Variant) :
    ∀ (xs : List α) (m : Int → objectpath → Option Variant) (x : α),
      (xs.map fun y => (f y).1).Nodup → x ∈ xs →
      (xs.foldl (fun m x => setBoth m (f x).1 (f x).2.1 (f x).2.2) m) 0 (f x).1 =
        some (f x).2.1 ∧
      (xs.foldl (fun m x => setBoth m (f x).1 (f x).2.1 (f x).2.2) m) 1 (f x).1 =
        some (f x).2.2 := by
  intro xs
  induction xs with
  | nil => intro m x _ hx; cases hx
  | cons y ys ih =>
    intro m x hnd hx
    rw [List.map_cons, List.nodup_cons] at hnd
    simp only [List.foldl_cons]
    rcases List.mem_cons.mp hx with hxy | hxy
    · subst hxy
      have hfr : ∀ z ∈ ys, (f z).1 ≠ (f x).1 := fun z hz hp =>
        hnd.1 (hp ▸ List.mem_map_of_mem (fun y => (f y).1) hz)
      rw [foldl_setBoth_of_not_mem f 0 _ ys _ hfr, foldl_setBoth_of_not_mem f 1 _ ys _ hfr]
      simp [setBoth_apply]
    · exact ih _ x hnd.2 hxy

/-- The store `initVictronValues` leaves, as two folds of `setBoth`. -/
theorem initVictronValues_victronValues (order : List (Nat × LookupEntry)) (st : State) :
    (initVictronValues order st).victronValues =
      order.foldl
        (fun m x =>
          setBoth m
            ((fun y : Nat × LookupEntry =>
              (y.2.Path, Variant.float (float64.ofInt 0), Variant.str ("0.0 " ++ y.2.Unit))) x).1
            ((fun y : Nat × LookupEntry =>
              (y.2.Path, Variant.float (float64.ofInt 0), Variant.str ("0.0 " ++ y.2.Unit))) x).2.1
            ((fun y : Nat × LookupEntry =>
              (y.2.Path, Variant.float (float64.ofInt 0), Variant.str ("0.0 " ++ y.2.Unit))) x).2.2)
        (staticValues.foldl
          (fun m x => setBoth m (id x).1 (id x).2.1 (id x).2.2) st.victronValues) :=
  rfl

theorem initVictronValues_lookup (order : List (Nat × LookupEntry))
    (horder : order.Perm actualLookup) (st : State) (x : Nat × LookupEntry)
    (hx : x ∈ actualLookup) :
    (initVictronValues order st).victronValues 0 x.2.Path = some (.float (float64.ofInt 0)) ∧
      (initVictronValues order st).victronValues 1 x.2.Path =
        some (.str ("0.0 " ++ x.2.Unit)) := by
  rw [initVictronValues_victronValues]
  exact foldl_setBoth_value _ order _ x (order_paths_nodup order horder)
    (horder.mem_iff.mpr hx)

theorem initVictronValues_connected (order : List (Nat × LookupEntry))
    (horder : order.Perm actualLookup) (st : State) :
    (initVictronValues order st).victronValues 0 "/Connected" = some (.int 1) ∧
      (initVictronValues order st).victronValues 1 "/Connected" = some (.str "1") := by
  have hnl : ∀ x ∈ order, x.2.Path ≠ "/Connected" := fun x hx =>
    basicPaths_not_lookup_paths "/Connected" (by decide) x (horder.mem_iff.mp hx)
  have hst := foldl_setBoth_value (fun x : String × Variant × Variant => id x) staticValues
    st.victronValues ("/Connected", .int 1, .str "1") (by decide) (by decide)
  rw [initVictronValues_victronValues, foldl_setBoth_of_not_mem _ 0 _ order _ hnl,
    foldl_setBoth_of_not_mem _ 1 _ order _ hnl]
  exact hst

theorem initVictronValues_complete (order : List (Nat × LookupEntry))
    (horder : order.Perm actualLookup) (st : State) :
    StoreComplete (initVictronValues order st) := by
  intro p hp
  rcases List.mem_cons.mp hp with hc | hl
  · subst hc
    obtain ⟨h0, h1⟩ := initVictronValues_connected order horder st
    rw [h0, h1]
    exact ⟨rfl, rfl⟩
  · obtain ⟨x, hx, hxp⟩ := List.mem_map.mp hl
    subst hxp
    obtain ⟨h0, h1⟩ := initVictronValues_lookup order horder st x hx
    rw [h0, h1]
    exact ⟨rfl, rfl⟩

theorem publishDataString_isSome (value : float64) (text path : String) (st : State)
    (k : Int) (p : objectpath) (h : (st.victronValues k p).isSome = true) :
    ((publishDataString value text path st).victronValues k p).isSome = true := by
  unfold publishDataString
  by_cases hb : st.dbusConnected = true
  · simp only [hb, if_true]
    have := setBoth_apply st.victronValues path (.float value) (.str text) k p
    unfold setBoth at this
    rw [this]
    split
    · rfl
    · split
      · rfl
      · exact h
  · simp only [hb]
    exact h

theorem resolveAll_isSome (m : RawMap) (k : Int) (p : objectpath)
    (order : List (Nat × LookupEntry)) :
    ∀ st : State, (st.victronValues k p).isSome = true →
      ((resolveAll order m st).victronValues k p).isSome = true := by
  induction order with
  | nil => intro st h; exact h
  | cons x xs ih =>
    intro st h
    simp only [resolveAll, List.foldl_cons] at ih ⊢
    apply ih
    rw [resolveEntry_eq]
    cases entryValue m x with
    | none => exact h
    | some v => exact publishDataString_isSome _ _ _ st k p h

theorem msgHandler_isSome (order : List (Nat × LookupEntry)) (st : State) (b : List byte)
    (k : Int) (p : objectpath) (h : (st.victronValues k p).isSome = true) :
    ((msgHandler order st b).state.victronValues k p).isSome = true := by
  unfold msgHandler
  cases decode b with
  | ok m => exact resolveAll_isSome m k p order st h
  | invalidHeader => exact h
  | fatal => exact h
  | panic => exact h
  | outOfFuel => exact h

theorem aliveCheckIteration_isSome (previousState captured : Bool) (st : State)
    (k : Int) (p : objectpath) (h : (st.victronValues k p).isSome = true) :
    ((aliveCheckIteration previousState captured st).2.1.victronValues k p).isSome = true := by
  unfold aliveCheckIteration
  simp only [Bool.false_or]
  cases aliveCheckCall previousState captured with
  | none => exact h
  | some c => exact publishDataString_isSome _ _ _ _ k p h

theorem resolveAll_emitted_path (m : RawMap) (s : Signal) (order : List (Nat × LookupEntry)) :
    ∀ st : State, s ∈ (resolveAll order m st).emitted →
      s ∈ st.emitted ∨ ∃ x ∈ order, s.path = x.2.Path := by
  induction order with
  | nil => intro st h; exact Or.inl h
  | cons x xs ih =>
    intro st h
    simp only [resolveAll, List.foldl_cons] at ih h
    rcases ih _ h with h1 | ⟨y, hy, hp⟩
    · rw [resolveEntry_eq] at h1
      cases hv : entryValue m x with
      | none => rw [hv] at h1; exact Or.inl h1
      | some v =>
        rw [hv] at h1
        simp only [publishData_emitted] at h1
        by_cases hb : st.dbusConnected = true
        · rw [if_pos hb, List.mem_append, List.mem_singleton] at h1
          rcases h1 with h2 | h2
          · exact Or.inl h2
          · exact Or.inr ⟨x, List.mem_cons_self _ _, by rw [h2]; rfl⟩
        · rw [if_neg hb] at h1
          exact Or.inl h1
    · exact Or.inr ⟨y, List.mem_cons_of_mem _ hy, hp⟩

/-- C14. After `initVictronValues` the store holds a value variant and a text
variant for every path the program publishes to: `0.0` and its text for the
path of every entry of `actualLookup`, `1` and `"1"` for `/Connected`. Every
publish operation, `publishDataString`, `publishData`, `msgHandler` and an
iteration of the liveness monitor, keeps the store complete. `msgHandler` emits
signals and changes the store only at paths of that set, and the calls of the
monitor go to `/Connected`, so no operation publishes to a path without an
entry. -/
theorem C14_store_complete (order : List (Nat × LookupEntry))
    (horder : order.Perm actualLookup) (st : State) :
    StoreComplete (initVictronValues order st) ∧
      (∀ x ∈ actualLookup,
        (initVictronValues order st).victronValues 0 x.2.Path =
            some (.float (float64.ofInt 0)) ∧
          (initVictronValues order st).victronValues 1 x.2.Path =
            some (.str ("0.0 " ++ x.2.Unit))) ∧
      ((initVictronValues order st).victronValues 0 "/Connected" = some (.int 1) ∧
        (initVictronValues order st).victronValues 1 "/Connected" = some (.str "1")) ∧
      (StoreComplete st →
        (∀ (v : float64) (t p : String), StoreComplete (publishDataString v t p st)) ∧
        (∀ (v : float64) (p u : String), StoreComplete (publishData v p u st)) ∧
        (∀ b : List byte, StoreComplete (msgHandler order st b).state) ∧
        (∀ previousState captured : Bool,
          StoreComplete (aliveCheckIteration previousState captured st).2.1)) ∧
      (∀ (b : List byte) (s : Signal), s ∈ (msgHandler order st b).state.emitted →
        s ∈ st.emitted ∨ s.path ∈ publishablePaths) ∧
      (∀ (b : List byte) (k : Int) (p : String), p ∉ publishablePaths →
        (msgHandler order st b).state.victronValues k p = st.victronValues k p) ∧
      (∀ (previousState captured : Bool) (c : PublishCall),
        aliveCheckCall previousState captured = some c → c.path ∈ publishablePaths) := by
  refine ⟨initVictronValues_complete order horder st,
    fun x hx => initVictronValues_lookup order horder st x hx,
    initVictronValues_connected order horder st, ?_, ?_, ?_, ?_⟩
  · intro hc
    refine ⟨?_, ?_, ?_, ?_⟩
    · intro v t p q hq
      exact ⟨publishDataString_isSome v t p st 0 q (hc q hq).1,
        publishDataString_isSome v t p st 1 q (hc q hq).2⟩
    · intro v p u q hq
      exact ⟨publishDataString_isSome v _ p st 0 q (hc q hq).1,
        publishDataString_isSome v _ p st 1 q (hc q hq).2⟩
    · intro b q hq
      exact ⟨msgHandler_isSome order st b 0 q (hc q hq).1,
        msgHandler_isSome order st b 1 q (hc q hq).2⟩
    · intro prev c q hq
      exact ⟨aliveCheckIteration_isSome prev c st 0 q (hc q hq).1,
        aliveCheckIteration_isSome prev c st 1 q (hc q hq).2⟩
  · intro b s hs
    cases hdec : decode b with
    | ok m =>
      rw [msgHandler_state_emitted order st b m hdec] at hs
      rcases resolveAll_emitted_path m s order st hs with h1 | ⟨x, hx, hp⟩
      · exact Or.inl h1
      · refine Or.inr (List.mem_cons_of_mem _ ?_)
        rw [hp]
        exact List.mem_map_of_mem (fun x => x.2.Path) (horder.mem_iff.mp hx)
    | invalidHeader => simp only [msgHandler, hdec] at hs; exact Or.inl hs
    | fatal => simp only [msgHandler, hdec] at hs; exact Or.inl hs
    | panic => simp only [msgHandler, hdec] at hs; exact Or.inl hs
    | outOfFuel => simp only [msgHandler, hdec] at hs; exact Or.inl hs
  · intro b k p hp
    cases hdec : decode b with
    | ok m =>
      rw [msgHandler_state_victronValues order st b m hdec]
      apply resolveAll_victronValues_frame m p k order st
      intro x hx hxp
      exact absurd (List.mem_cons_of_mem _
        (hxp ▸ List.mem_map_of_mem (fun x => x.2.Path) (horder.mem_iff.mp hx))) hp
    | invalidHeader => simp [msgHandler, hdec]
    | fatal => simp [msgHandler, hdec]
    | panic => simp [msgHandler, hdec]
    | outOfFuel => simp [msgHandler, hdec]
  · intro prev c x h
    rw [aliveCheckCall_eq] at h
    split at h
    · injection h with h
      subst h
      cases c <;> decide
    · cases h

/-- C14, at the source order of the table, from `emptyState`. -/
theorem C14_store_complete_witness :
    StoreComplete (initVictronValues actualLookup emptyState) ∧
      (∀ b : List byte,
        StoreComplete (msgHandler actualLookup (initVictronValues actualLookup emptyState)
          b).state) :=
  ⟨(C14_store_complete actualLookup (List.Perm.refl _) emptyState).1,
    ((C14_store_complete actualLookup (List.Perm.refl _)
      (initVictronValues actualLookup emptyState)).2.2.2.1
      (C14_store_complete actualLookup (List.Perm.refl _) emptyState).1).2.2.1⟩

/-! ## Failure of the bus name registration -/

/-- After `main`, the flag `dbusConnected` is set whenever `main` reaches its
blocking state, on the error branch of `RequestName` as after the reply
`PrimaryOwner`; with a nil `conn`, and with any other reply, `main` ends in a
panic with the flag as it was. -/
theorem main_dbusConnected (order : List (Nat × LookupEntry)) (st : State) :
    ((main order .requestError st).1 = .blocks ∧
        (main order .requestError st).2.dbusConnected = true) ∧
      ((main order (.reply .PrimaryOwner) st).1 = .blocks ∧
        (main order (.reply .PrimaryOwner) st).2.dbusConnected = true) ∧
      ((main order .noConnection st).1 = .panicked ∧
        (main order .noConnection st).2.dbusConnected = st.dbusConnected) ∧
      (∀ r : RequestNameReply, r ≠ .PrimaryOwner →
        (main order (.reply r) st).1 = .panicked ∧
          (main order (.reply r) st).2.dbusConnected = st.dbusConnected) := by
  refine ⟨⟨rfl, rfl⟩, ⟨rfl, rfl⟩, ⟨rfl, rfl⟩, ?_⟩
  intro r hr
  simp [main, hr, initVictronValues]

/-- C15, the code at the failing input. From the state in which the process
starts, with `conn.RequestName` returning an error: `main` reaches its blocking
state with `dbusConnected` set to true, although the flag was false before and
the registration failed; the publish `publishDataString(1, "1", "/Connected")`
made afterwards stores its value and text and emits a signal. The process is
not in a mode without notifications. -/
theorem C15_flag_set_after_failed_registration :
    initialState.dbusConnected = false ∧
      (main actualLookup .requestError initialState).1 = .blocks ∧
      (main actualLookup .requestError initialState).2.dbusConnected = true ∧
      (publishDataString (float64.ofInt 1) "1" "/Connected"
          (main actualLookup .requestError initialState).2).victronValues 0 "/Connected" =
        some (.float (float64.ofInt 1)) ∧
      (publishDataString (float64.ofInt 1) "1" "/Connected"
          (main actualLookup .requestError initialState).2).emitted =
        [{ path := "/Connected", name := "com.victronenergy.BusItem.PropertiesChanged",
           Text := .str "1", Value := .float (float64.ofInt 1) }] := by
  decide

end ShmEt340
